import Mathlib

set_option maxRecDepth 8000

/-!
Shallow embedding of the throttled task dispatcher implemented by the class
RequestQueue in src/utils/RequestQueue.mjs.

The JavaScript code is single-threaded with cooperative suspension points at
each await.  We model a run of the dispatcher as a sequence of atomic steps:

* a submit step models a call to add(requestFn) (lines 32-37): the pending
  entry is pushed onto the queue and process() runs synchronously up to its
  first suspension point;
* a wake step models the firing of the setTimeout created inside
  waitForRateLimit (line 24): the sleeping invocation re-evaluates the whole
  rate-limit check from the top (the recursive call on line 25);
* a settle step models the opaque task settling: resolve or reject is called
  (lines 50-52), then the finally block runs synchronously
  (activeRequests decrement and the process() re-trigger, lines 53-56).

Date.now() is modelled by a monotone integer time carried in the state; each
step carries the instant at which it happens and is refused when that instant
is in the past.  A setTimeout(resolve, w) callback may fire at any instant at
or after its deadline (JavaScript only guarantees a minimum delay), hence the
wake step merely requires the chosen instant to be at or past the deadline.

One evaluation of the body of waitForRateLimit (lines 12-30) is pure and
synchronous up to the single sleep, so it is embedded as a function from the
timestamp log and the current instant to the new log plus either a grant or
an absolute wake deadline.  When the remaining count reaches the limit and
the log is empty (possible only when requestsPerSecond is not positive),
the JavaScript code reads requestTimestamps[0] as undefined, computes
waitTime = NaN, and NaN > 0 is false, so control falls through to the push:
clearance is granted.  The embedding reproduces that fall-through exactly.
-/

/-- Outcome an opaque task produces when it settles: a value (resolve) or a
raised error (reject).  Task payloads are opaque to the dispatcher, so plain
integers suffice. -/
abbrev Outcome := Except Int Int

deriving instance DecidableEq for Except

/-- A pending entry: the record pushed by add on line 34 of
src/utils/RequestQueue.mjs, identified by the promise id pid handed back to
the submitter, together with the outcome the opaque task will produce. -/
structure Item where
  pid : Nat
  outcome : Outcome
  deriving DecidableEq, Repr

/-- Where an in-flight process() invocation currently is: sleeping inside the
rate limiter until the absolute instant wake (the setTimeout on line 24), or
past clearance with the task invoked and not yet settled (line 49). -/
inductive FlightPhase where
  | sleeping (wake : Int)
  | running
  deriving DecidableEq, Repr

/-- An in-flight process() invocation: it has already incremented
activeRequests (line 44) and shifted its entry off the queue (line 45). -/
structure Flight where
  tid : Nat
  item : Item
  phase : FlightPhase
  deriving DecidableEq, Repr

/-- The mutable fields of the RequestQueue instance, exactly the fields set
by the constructor on lines 4-10 of src/utils/RequestQueue.mjs. -/
structure RequestQueue where
  maxConcurrent : Int
  requestsPerSecond : Int
  activeRequests : Int
  queue : List Item
  requestTimestamps : List Int
  deriving DecidableEq, Repr

/-- The constructor (lines 4-10): stores both limits unvalidated and starts
with counter zero, empty queue, empty timestamp log. -/
def mkRequestQueue (maxConcurrent : Int) (requestsPerSecond : Int) : RequestQueue :=
  { maxConcurrent := maxConcurrent
    requestsPerSecond := requestsPerSecond
    activeRequests := 0
    queue := []
    requestTimestamps := [] }

/-- The zero-argument construction new RequestQueue(): the default limits of
the constructor signature on line 4 are maxConcurrent = 30 and
requestsPerSecond = 40. -/
def mkRequestQueueDefault : RequestQueue := mkRequestQueue 30 40

/-- Observable events of a run, in chronological order. -/
inductive REv where
  | submitE (pid : Nat) (o : Outcome)
  | dispatchE (pid : Nat)
  | startE (pid : Nat) (t : Int)
  | resolveE (pid : Nat) (v : Int)
  | rejectE (pid : Nat) (e : Int)
  deriving DecidableEq, Repr

/-- Whole-system state: the RequestQueue instance, the in-flight process()
invocations, fresh-id counters, the current Date.now() value, and the
chronological event trace of the run. -/
structure Sys where
  rq : RequestQueue
  threads : List Flight
  nextPid : Nat
  nextTid : Nat
  now : Int
  events : List REv
  deriving DecidableEq, Repr

/-- The initial state: a freshly constructed RequestQueue at instant t0. -/
def initSys (maxC rps t0 : Int) : Sys :=
  { rq := mkRequestQueue maxC rps
    threads := []
    nextPid := 0
    nextTid := 0
    now := t0
    events := [] }

/-- One evaluation of the body of waitForRateLimit (lines 12-30) at instant
now.  Returns the new requestTimestamps log, paired with none when clearance
is granted (the current timestamp was pushed, line 29) or some w when the
invocation went to sleep until the absolute instant w = oldest + 1000
(line 22-24; the stored log is then the pruned one from line 17).
The empty-log arm of the match is the JavaScript fall-through where
requestTimestamps[0] is undefined, waitTime is NaN, and NaN > 0 is false,
so the push on line 29 runs: that arm grants clearance. -/
def rateCheck (rps : Int) (pruned : List Int) (now : Int) : List Int × Option Int :=
  if rps ≤ (pruned.length : Int) then
    match pruned with
    | [] => (pruned ++ [now], none)
    | oldest :: _ =>
      if 0 < oldest + 1000 - now then (pruned, some (oldest + 1000))
      else (pruned ++ [now], none)
  else (pruned ++ [now], none)

/-- The full check: first the pruning assignment on line 17, then the
limit test on the pruned log. -/
def waitForRateLimitStep (rps : Int) (requestTimestamps : List Int) (now : Int) :
    List Int × Option Int :=
  rateCheck rps (requestTimestamps.filter (fun ts => decide (now - 1000 < ts))) now

/-- The settle event delivered to the submitter: resolve(result) on line 50
for a produced value, reject(error) on line 52 for a raised error. -/
def settleEv (pid : Nat) (o : Outcome) : REv :=
  match o with
  | Except.ok v => REv.resolveE pid v
  | Except.error e => REv.rejectE pid e

/-- The state reached once a dispatched entry it has passed the guard
(line 40), incremented the counter (line 44), been shifted (line 45) and run
the first rate-limit check; rest is the remaining queue. -/
def dispatchResult (s : Sys) (it : Item) (rest : List Item) : Sys :=
  match waitForRateLimitStep s.rq.requestsPerSecond s.rq.requestTimestamps s.now with
  | (log, none) =>
    { s with
      rq := { s.rq with
        activeRequests := s.rq.activeRequests + 1
        queue := rest
        requestTimestamps := log }
      threads := s.threads ++ [⟨s.nextTid, it, FlightPhase.running⟩]
      nextTid := s.nextTid + 1
      events := s.events ++ [REv.dispatchE it.pid, REv.startE it.pid s.now] }
  | (log, some w) =>
    { s with
      rq := { s.rq with
        activeRequests := s.rq.activeRequests + 1
        queue := rest
        requestTimestamps := log }
      threads := s.threads ++ [⟨s.nextTid, it, FlightPhase.sleeping w⟩]
      nextTid := s.nextTid + 1
      events := s.events ++ [REv.dispatchE it.pid] }

/-- One synchronous invocation of process() (lines 39-57) at the current
instant s.now: the guard on line 40 returns immediately when the gate is
saturated or the queue is empty; otherwise the head entry is dispatched. -/
def processSync (s : Sys) : Sys :=
  if s.rq.maxConcurrent ≤ s.rq.activeRequests then s
  else
    match s.rq.queue with
    | [] => s
    | it :: rest => dispatchResult s it rest

/-- Update the phase of the in-flight invocation with identity tid. -/
def setPhase (threads : List Flight) (tid : Nat) (ph : FlightPhase) : List Flight :=
  threads.map (fun fl => if fl.tid = tid then { fl with phase := ph } else fl)

/-- The synchronous part of a task settling (lines 50-56) at instant t,
before the process() re-trigger: the settle event is delivered
(resolve / reject), then the finally block decrements activeRequests.  The
same block runs whether the task produced a value or raised. -/
def settleBase (s : Sys) (fl : Flight) (t : Int) : Sys :=
  { s with
    rq := { s.rq with activeRequests := s.rq.activeRequests - 1 }
    threads := s.threads.filter (fun x => decide (¬ x.tid = fl.tid))
    now := t
    events := s.events ++ [settleEv fl.item.pid fl.item.outcome] }

/-- Scheduler-visible steps of a run. -/
inductive StepD where
  | submit (o : Outcome) (t : Int)
  | wake (tid : Nat) (t : Int)
  | settle (tid : Nat) (t : Int)
  deriving DecidableEq, Repr

/-- One atomic step of the system.  Returns none when the step is not
enabled at this state (an instant in the past, a missing in-flight id, a
wake of a non-sleeping invocation, a wake ahead of its timer deadline, or a
settle of a task that has not started). -/
def stepSys (s : Sys) : StepD → Option Sys
  | StepD.submit o t =>
    if t < s.now then none
    else
      some (processSync
        { s with
          rq := { s.rq with queue := s.rq.queue ++ [⟨s.nextPid, o⟩] }
          nextPid := s.nextPid + 1
          now := t
          events := s.events ++ [REv.submitE s.nextPid o] })
  | StepD.wake tid t =>
    if t < s.now then none
    else
      match s.threads.find? (fun x => decide (x.tid = tid)) with
      | none => none
      | some fl =>
        match fl.phase with
        | FlightPhase.running => none
        | FlightPhase.sleeping w =>
          if t < w then none
          else
            match waitForRateLimitStep s.rq.requestsPerSecond s.rq.requestTimestamps t with
            | (log, none) =>
              some { s with
                rq := { s.rq with requestTimestamps := log }
                threads := setPhase s.threads tid FlightPhase.running
                now := t
                events := s.events ++ [REv.startE fl.item.pid t] }
            | (log, some w2) =>
              some { s with
                rq := { s.rq with requestTimestamps := log }
                threads := setPhase s.threads tid (FlightPhase.sleeping w2)
                now := t }
  | StepD.settle tid t =>
    if t < s.now then none
    else
      match s.threads.find? (fun x => decide (x.tid = tid)) with
      | none => none
      | some fl =>
        match fl.phase with
        | FlightPhase.sleeping _ => none
        | FlightPhase.running => some (processSync (settleBase s fl t))

/-- Run a whole schedule of steps from a state. -/
def runSys (s : Sys) : List StepD → Option Sys
  | [] => some s
  | d :: ds =>
    match stepSys s d with
    | some s1 => runSys s1 ds
    | none => none

/-- States reachable from a freshly constructed dispatcher. -/
def SysReachable (maxC rps t0 : Int) (s : Sys) : Prop :=
  ∃ ds : List StepD, runSys (initSys maxC rps t0) ds = some s

/-- The promise id an event belongs to. -/
def evPid : REv → Nat
  | REv.submitE p _ => p
  | REv.dispatchE p => p
  | REv.startE p _ => p
  | REv.resolveE p _ => p
  | REv.rejectE p _ => p

/-- The sub-trace of events belonging to one promise id, in order. -/
def pidEvents (evs : List REv) (pid : Nat) : List REv :=
  evs.filter (fun e => decide (evPid e = pid))

/-- Is this event a settlement (resolve or reject) of some promise? -/
def isSettleEv : REv → Bool
  | REv.resolveE _ _ => true
  | REv.rejectE _ _ => true
  | _ => false

/-- How many times the promise pid has been settled in the trace. -/
def settleCount (evs : List REv) (pid : Nat) : Nat :=
  (evs.filter (fun e => isSettleEv e && decide (evPid e = pid))).length

/-- Is this event a dispatch (transition out of Queued)? -/
def isDispatchEv : REv → Bool
  | REv.dispatchE _ => true
  | _ => false

/-- How many times the promise pid has been dispatched in the trace. -/
def dispatchCount (evs : List REv) (pid : Nat) : Nat :=
  (evs.filter (fun e => isDispatchEv e && decide (evPid e = pid))).length

/-- The promise ids submitted so far, in submission order. -/
def submittedPids (evs : List REv) : List Nat :=
  evs.filterMap (fun e => match e with | REv.submitE p _ => some p | _ => none)

/-- The promise ids dispatched so far, in dispatch order. -/
def dispatchedPids (evs : List REv) : List Nat :=
  evs.filterMap (fun e => match e with | REv.dispatchE p => some p | _ => none)

/-- The instants at which task executions started, in start order.  These are
exactly the instants pushed onto requestTimestamps when clearance was
granted. -/
def startTimes (evs : List REv) : List Int :=
  evs.filterMap (fun e => match e with | REv.startE _ t => some t | _ => none)

/-- How many of the given instants fall in the trailing one-second window
ending at T, namely the half-open interval from T - 1000 exclusive to T
inclusive. -/
def windowCount (ts : List Int) (T : Int) : Nat :=
  (ts.filter (fun x => decide (T - 1000 < x) && decide (x ≤ T))).length

/-- The queue entries carrying a given promise id. -/
def queueFor (s : Sys) (pid : Nat) : List Item :=
  s.rq.queue.filter (fun it => decide (it.pid = pid))

/-- The in-flight invocations carrying a given promise id. -/
def threadsFor (s : Sys) (pid : Nat) : List Flight :=
  s.threads.filter (fun fl => decide (fl.item.pid = pid))

/-- Per-promise lifecycle invariant: each submitted task is in exactly one of
the states Queued, Dispatched-sleeping, Dispatched-running, Settled, and its
event sub-trace is the corresponding prefix of
submit, dispatch, start, settle, with the settle payload verbatim equal to
the outcome recorded at submission. -/
def PidInv (s : Sys) (pid : Nat) : Prop :=
  (pidEvents s.events pid = [] ∧ queueFor s pid = [] ∧ threadsFor s pid = [])
  ∨ (∃ o, pidEvents s.events pid = [REv.submitE pid o]
      ∧ queueFor s pid = [⟨pid, o⟩] ∧ threadsFor s pid = [])
  ∨ (∃ o tid w, pidEvents s.events pid = [REv.submitE pid o, REv.dispatchE pid]
      ∧ queueFor s pid = [] ∧ threadsFor s pid = [⟨tid, ⟨pid, o⟩, FlightPhase.sleeping w⟩])
  ∨ (∃ o tid t, pidEvents s.events pid
        = [REv.submitE pid o, REv.dispatchE pid, REv.startE pid t]
      ∧ queueFor s pid = [] ∧ threadsFor s pid = [⟨tid, ⟨pid, o⟩, FlightPhase.running⟩])
  ∨ (∃ o t, pidEvents s.events pid
        = [REv.submitE pid o, REv.dispatchE pid, REv.startE pid t, settleEv pid o]
      ∧ queueFor s pid = [] ∧ threadsFor s pid = [])

/-- The event-shape part of the per-promise lifecycle: the sub-trace of any
one promise is a prefix of submit, dispatch, start, settle (no re-entry into
Queued, no double terminal state, dispatch strictly before start strictly
before settle, settle payload verbatim). -/
def EvShape (evs : List REv) (pid : Nat) : Prop :=
  pidEvents evs pid = []
  ∨ (∃ o, pidEvents evs pid = [REv.submitE pid o])
  ∨ (∃ o, pidEvents evs pid = [REv.submitE pid o, REv.dispatchE pid])
  ∨ (∃ o t, pidEvents evs pid = [REv.submitE pid o, REv.dispatchE pid, REv.startE pid t])
  ∨ (∃ o t, pidEvents evs pid
      = [REv.submitE pid o, REv.dispatchE pid, REv.startE pid t, settleEv pid o])

/-- Global state invariant of the dispatcher, established at construction and
preserved by every step. -/
structure SysInv (s : Sys) : Prop where
  active_eq : s.rq.activeRequests = (s.threads.length : Int)
  active_cap : s.rq.activeRequests ≤ s.rq.maxConcurrent ∨ s.threads = []
  tids_nodup : (s.threads.map Flight.tid).Nodup
  tids_lt : ∀ fl ∈ s.threads, fl.tid < s.nextTid
  qpids_lt : ∀ it ∈ s.rq.queue, it.pid < s.nextPid
  tpids_lt : ∀ fl ∈ s.threads, fl.item.pid < s.nextPid
  queue_sorted : (s.rq.queue.map Item.pid).Sorted (· < ·)
  disp_sorted : (dispatchedPids s.events).Sorted (· < ·)
  disp_lt_queue : ∀ p ∈ dispatchedPids s.events, ∀ it ∈ s.rq.queue, p < it.pid
  disp_lt_next : ∀ p ∈ dispatchedPids s.events, p < s.nextPid
  submits_eq : submittedPids s.events = List.range s.nextPid
  starts_le_now : ∀ x ∈ startTimes s.events, x ≤ s.now
  log_eq : ∃ c, c ≤ s.now - 1000
    ∧ s.rq.requestTimestamps = (startTimes s.events).filter (fun x => decide (c < x))
  window_ok : 1 ≤ s.rq.requestsPerSecond →
    ∀ T : Int, (windowCount (startTimes s.events) T : Int) ≤ s.rq.requestsPerSecond
  wake_le : ∀ fl ∈ s.threads, ∀ w, fl.phase = FlightPhase.sleeping w → w ≤ s.now + 1000
  fresh : ∀ pid, s.nextPid ≤ pid → pidEvents s.events pid = []
  pid_inv : ∀ pid, PidInv s pid

/-- No lost wakeups: while the gate has any capacity at all, a non-empty
queue always has at least one in-flight invocation that will re-trigger the
dispatch loop when it settles. -/
def QueueLive (s : Sys) : Prop :=
  1 ≤ s.rq.maxConcurrent → s.rq.queue ≠ [] → s.threads ≠ []

/-- Full invariant carried through reachability. -/
def GoodSys (s : Sys) : Prop := SysInv s ∧ QueueLive s

/-- Weight of an in-flight invocation for the drain measure. -/
def flightWeight (fl : Flight) : Nat :=
  match fl.phase with
  | FlightPhase.sleeping _ => 2
  | FlightPhase.running => 1

/-- Drain measure: an upper bound on the remaining scheduling work. -/
def measureSys (s : Sys) : Nat :=
  3 * s.rq.queue.length + (s.threads.map flightWeight).sum

/-- Modelled from the spec claim wording for C3, literal reading: on each
clearance check discard every logged start-timestamp older than now - 1000ms
(that is, strictly earlier than the instant now - 1000, so a timestamp equal
to now - 1000 is kept); if the remaining count is below requestsPerSecond,
grant immediately and append the current timestamp; otherwise suspend until
oldest + 1000 and re-evaluate from the top. -/
def specClearanceLiteral (rps : Int) (log : List Int) (now : Int) :
    List Int × Option Int :=
  if ((log.filter (fun ts => decide (now - 1000 ≤ ts))).length : Int) < rps then
    (log.filter (fun ts => decide (now - 1000 ≤ ts)) ++ [now], none)
  else
    (log.filter (fun ts => decide (now - 1000 ≤ ts)),
      some ((log.filter (fun ts => decide (now - 1000 ≤ ts))).headD 0 + 1000))

/-- Modelled from the spec claim wording for C3, amended boundary: discard
every logged start-timestamp that is at least one second old (a timestamp
equal to now - 1000 is discarded too; only timestamps strictly inside the
trailing second are kept); the rest as in the literal reading. -/
def specClearanceAmended (rps : Int) (log : List Int) (now : Int) :
    List Int × Option Int :=
  if ((log.filter (fun ts => decide (now - 1000 < ts))).length : Int) < rps then
    (log.filter (fun ts => decide (now - 1000 < ts)) ++ [now], none)
  else
    (log.filter (fun ts => decide (now - 1000 < ts)),
      some ((log.filter (fun ts => decide (now - 1000 < ts))).headD 0 + 1000))

/-- Does the trace invoke (start) task p strictly before task q? -/
def isStartOf (p : Nat) : REv → Bool
  | REv.startE q _ => decide (q = p)
  | _ => false

/-- Was task p submitted? -/
def isSubmitOf (p : Nat) : REv → Bool
  | REv.submitE q _ => decide (q = p)
  | _ => false

/-- True when the first start of p comes strictly before the first start of
q in the trace. -/
def startedBefore (evs : List REv) (p q : Nat) : Bool :=
  match evs.findIdx? (isStartOf p), evs.findIdx? (isStartOf q) with
  | some i, some j => decide (i < j)
  | _, _ => false

/-- True when the submission of p comes strictly before the submission of q
in the trace. -/
def submittedBefore (evs : List REv) (p q : Nat) : Bool :=
  match evs.findIdx? (isSubmitOf p), evs.findIdx? (isSubmitOf q) with
  | some i, some j => decide (i < j)
  | _, _ => false

/-- A concrete realizable schedule with maxConcurrent = 2 and
requestsPerSecond = 1: task 0 is submitted at instant 0 and starts at once;
task 1 is submitted at instant 10, is dispatched, and sleeps in the rate
limiter until instant 1000; task 2 is submitted at instant 20 and stays
queued behind the saturated gate.  At instant 1000 task 0 settles (its own
timer fires before the sleeper's timer: both are due at 1000 and the task's
timer was created first), the freed slot dispatches task 2, whose fresh
clearance check finds the window empty and starts it immediately; only then
does the sleeper re-check, finds the window full again, and must wait until
instant 2000 to start. -/
def c5steps : List StepD :=
  [StepD.submit (Except.ok 100) 0,
   StepD.submit (Except.ok 101) 10,
   StepD.submit (Except.ok 102) 20,
   StepD.settle 0 1000,
   StepD.wake 1 1000,
   StepD.wake 1 2000]

/-- A small concrete reachable state, used to instantiate the reachable-state
theorems: the dispatcher with maxConcurrent = 2 and requestsPerSecond = 1
right after one task was submitted at instant 0 and started immediately. -/
def sysA : Sys :=
  { rq := { maxConcurrent := 2, requestsPerSecond := 1, activeRequests := 1,
            queue := [], requestTimestamps := [0] }
    threads := [⟨0, ⟨0, Except.ok 5⟩, FlightPhase.running⟩]
    nextPid := 1
    nextTid := 1
    now := 0
    events := [REv.submitE 0 (Except.ok 5), REv.dispatchE 0, REv.startE 0 0] }

/-! ## General helper lemmas -/

/-- Filtering with a pointwise weaker predicate keeps at least as many
elements. -/
theorem length_filter_mono {α : Type} {p q : α → Bool} :
    ∀ l : List α, (∀ a ∈ l, p a = true → q a = true) →
      (l.filter p).length ≤ (l.filter q).length := by
  intro l
  induction l with
  | nil => intro _; simp
  | cons a tl ih =>
    intro h
    have htl := ih (fun x hx => h x (List.mem_cons_of_mem _ hx))
    cases hpa : p a with
    | true =>
      have hqa : q a = true := h a (List.mem_cons_self _ _) hpa
      simp only [List.filter_cons, hpa, hqa, if_true]
      simp only [List.length_cons]
      omega
    | false =>
      simp only [List.filter_cons, hpa]
      cases hqa : q a with
      | true =>
        simp only [hqa, if_true, if_false, List.length_cons]
        simp only [Bool.false_eq_true, if_false]
        omega
      | false =>
        simp only [hqa, Bool.false_eq_true, if_false]
        exact htl

/-! ## Characterization of the rate-limit check -/

/-- On an empty pruned log the check always grants: either the limit is not
reached, or (a non-positive limit) the JavaScript NaN comparison fails and
control falls through to the push. -/
theorem rateCheck_nil (rps now : Int) : rateCheck rps [] now = ([now], none) := by
  unfold rateCheck
  split <;> simp

/-- On a non-empty pruned log the check is the limit test followed by the
wait-time test on the oldest timestamp. -/
theorem rateCheck_cons (rps now oldest : Int) (tl : List Int) :
    rateCheck rps (oldest :: tl) now =
      if rps ≤ ((oldest :: tl).length : Int) then
        if 0 < oldest + 1000 - now then (oldest :: tl, some (oldest + 1000))
        else (oldest :: tl ++ [now], none)
      else (oldest :: tl ++ [now], none) := rfl

/-- When the check grants clearance, the stored log is the pruned log with
the current instant appended. -/
theorem waitStep_grant_log {rps : Int} {L : List Int} {now : Int} {log : List Int}
    (h : waitForRateLimitStep rps L now = (log, none)) :
    log = L.filter (fun ts => decide (now - 1000 < ts)) ++ [now] := by
  unfold waitForRateLimitStep at h
  cases hp : L.filter (fun ts => decide (now - 1000 < ts)) with
  | nil =>
    rw [hp, rateCheck_nil] at h
    injection h with h1 h2
    exact h1.symm
  | cons oldest tl =>
    rw [hp, rateCheck_cons] at h
    by_cases hc : rps ≤ ((oldest :: tl).length : Int)
    · rw [if_pos hc] at h
      by_cases ht : 0 < oldest + 1000 - now
      · rw [if_pos ht] at h
        injection h with h1 h2
        exact absurd h2 (by simp)
      · rw [if_neg ht] at h
        injection h with h1 h2
        exact h1.symm
    · rw [if_neg hc] at h
      injection h with h1 h2
      exact h1.symm

/-- When the check grants clearance and the configured limit is positive,
the pruned log was strictly below the limit. -/
theorem waitStep_grant_lt {rps : Int} {L : List Int} {now : Int} {log : List Int}
    (h1 : 1 ≤ rps) (h : waitForRateLimitStep rps L now = (log, none)) :
    ((L.filter (fun ts => decide (now - 1000 < ts))).length : Int) < rps := by
  unfold waitForRateLimitStep at h
  cases hp : L.filter (fun ts => decide (now - 1000 < ts)) with
  | nil =>
    simp
    omega
  | cons oldest tl =>
    have hmem : oldest ∈ L.filter (fun ts => decide (now - 1000 < ts)) := by
      rw [hp]; exact List.mem_cons_self _ _
    have hband : now - 1000 < oldest := by
      have := List.mem_filter.mp hmem
      simpa using this.2
    rw [hp, rateCheck_cons] at h
    by_cases hc : rps ≤ ((oldest :: tl).length : Int)
    · rw [if_pos hc, if_pos (by omega)] at h
      injection h with h1 h2
      exact absurd h2 (by simp)
    · omega

/-- When the check sends the invocation to sleep, the stored log is exactly
the pruned log, the wake deadline is oldest + 1000 for the oldest pruned
timestamp, and the limit was reached. -/
theorem waitStep_sleep {rps : Int} {L : List Int} {now : Int} {log : List Int} {w : Int}
    (h : waitForRateLimitStep rps L now = (log, some w)) :
    log = L.filter (fun ts => decide (now - 1000 < ts))
    ∧ (∃ tl, log = (w - 1000) :: tl)
    ∧ rps ≤ (log.length : Int) := by
  unfold waitForRateLimitStep at h
  cases hp : L.filter (fun ts => decide (now - 1000 < ts)) with
  | nil =>
    rw [hp, rateCheck_nil] at h
    injection h with h1 h2
    exact absurd h2 (by simp)
  | cons oldest tl =>
    rw [hp, rateCheck_cons] at h
    by_cases hc : rps ≤ ((oldest :: tl).length : Int)
    · rw [if_pos hc] at h
      by_cases ht : 0 < oldest + 1000 - now
      · rw [if_pos ht] at h
        injection h with h1 h2
        injection h2 with h3
        have hl : log = oldest :: tl := h1.symm
        have hw : w - 1000 = oldest := by omega
        refine ⟨hl, ⟨tl, by rw [hl, hw]⟩, ?_⟩
        rw [hl]
        exact hc
      · rw [if_neg ht] at h
        injection h with h1 h2
        exact absurd h2 (by simp)
    · rw [if_neg hc] at h
      injection h with h1 h2
      exact absurd h2 (by simp)

/-! ## Easy claims: constructor, frame, rate-limit algorithm -/

/-- C10: new RequestQueue() yields the default limits maxConcurrent = 30 and
requestsPerSecond = 40, and for every pair of limit values, positive or not,
construction succeeds with counter 0, empty queue and empty timestamp log:
no validation is performed. -/
theorem c10_constructor_defaults :
    mkRequestQueueDefault =
      { maxConcurrent := 30, requestsPerSecond := 40, activeRequests := 0,
        queue := [], requestTimestamps := [] }
    ∧ ∀ m r : Int,
        (mkRequestQueue m r).maxConcurrent = m
        ∧ (mkRequestQueue m r).requestsPerSecond = r
        ∧ (mkRequestQueue m r).activeRequests = 0
        ∧ (mkRequestQueue m r).queue = []
        ∧ (mkRequestQueue m r).requestTimestamps = [] :=
  ⟨rfl, fun _ _ => ⟨rfl, rfl, rfl, rfl, rfl⟩⟩

/-- C9: a process() invocation that finds the gate saturated or the queue
empty returns at the guard (line 40-42) and leaves the whole state - queue,
counter, timestamp log, in-flight set, trace - unchanged. -/
theorem c9_process_frame (s : Sys)
    (h : s.rq.maxConcurrent ≤ s.rq.activeRequests ∨ s.rq.queue = []) :
    processSync s = s := by
  unfold processSync
  rcases h with h | h
  · rw [if_pos h]
  · by_cases h2 : s.rq.maxConcurrent ≤ s.rq.activeRequests
    · rw [if_pos h2]
    · rw [if_neg h2, h]

theorem c9_process_frame_witness :
    ((initSys 30 40 0).rq.maxConcurrent ≤ (initSys 30 40 0).rq.activeRequests
      ∨ (initSys 30 40 0).rq.queue = [])
    ∧ processSync (initSys 30 40 0) = initSys 30 40 0 :=
  ⟨Or.inr rfl, c9_process_frame (initSys 30 40 0) (Or.inr rfl)⟩

/-- C3 counterexample: the claim says the check discards timestamps older
than now - 1000; the code discards every timestamp ts with ts ≤ now - 1000,
which also removes a timestamp exactly at the boundary now - 1000.  With
requestsPerSecond = 2, log = [0] and now = 1000 the literal algorithm keeps
the boundary timestamp and returns log [0, 1000], while the code prunes it
and returns log [1000]. -/
theorem c3_boundary_cex :
    waitForRateLimitStep 2 [0] 1000 ≠ specClearanceLiteral 2 [0] 1000 := by
  decide

/-- C3 amended: for every positive requestsPerSecond, each evaluation of
waitForRateLimit performs exactly the spec's clearance algorithm with the
boundary amended to "discard timestamps at least 1000ms old": prune with
ts ≤ now - 1000 discarded, grant and append now when the remaining count is
below the limit, otherwise sleep until oldest + 1000 (that is, for
oldest + 1000 - now) leaving the pruned log stored, and re-evaluate from the
top on wake (the wake step of the system runs the whole check again). -/
theorem c3_clearance_algorithm (rps : Int) (log : List Int) (now : Int)
    (h : 1 ≤ rps) :
    waitForRateLimitStep rps log now = specClearanceAmended rps log now := by
  unfold waitForRateLimitStep specClearanceAmended
  cases hp : log.filter (fun ts => decide (now - 1000 < ts)) with
  | nil =>
    rw [rateCheck_nil, if_pos (by simp; omega)]
    simp
  | cons oldest tl =>
    have hmem : oldest ∈ log.filter (fun ts => decide (now - 1000 < ts)) := by
      rw [hp]; exact List.mem_cons_self _ _
    have hband : now - 1000 < oldest := by
      have := List.mem_filter.mp hmem
      simpa using this.2
    rw [rateCheck_cons]
    by_cases hc : rps ≤ ((oldest :: tl).length : Int)
    · rw [if_pos hc, if_pos (by omega), if_neg (by omega)]
      simp
    · rw [if_neg hc, if_pos (by omega)]

theorem c3_clearance_algorithm_witness :
    (1 : Int) ≤ 1
    ∧ waitForRateLimitStep 1 [5] 900 = specClearanceAmended 1 [5] 900 :=
  ⟨by decide, c3_clearance_algorithm 1 [5] 900 (by decide)⟩

/-- C4: with requestsPerSecond = 0 (a non-positive limit) and an empty or
fully expired log, the clearance check grants at once: the length test
0 >= 0 succeeds, requestTimestamps[0] is undefined, waitTime is NaN,
NaN > 0 is false, and control falls through to the push on line 29.  A
freshly constructed dispatcher with requestsPerSecond = 0 therefore starts
a submitted task immediately, contradicting the requirement that clearance
never be granted for non-positive limits. -/
theorem c4_nonpositive_rate_grants :
    waitForRateLimitStep 0 [] 0 = ([0], none)
    ∧ (runSys (initSys 30 0 0) [StepD.submit (Except.ok 1) 0]).map
        (fun s => decide (REv.startE 0 0 ∈ s.events)) = some true :=
  ⟨rfl, rfl⟩

/-- C5 counterexample: a realizable schedule in which task 1 is submitted
before task 2 yet task 2 is invoked first.  Task 1 is dispatched but asleep
in the rate limiter; task 0 settles exactly when the window frees, the freed
slot dispatches task 2 whose fresh clearance check grants immediately, and
only then does task 1's timer re-check (its setTimeout only guarantees a
minimum delay), finding the window full again. -/
theorem c5_start_order_cex :
    (runSys (initSys 2 1 0) c5steps).map
      (fun s => submittedBefore s.events 1 2 && startedBefore s.events 2 1)
      = some true := rfl

/-! ## Trace computation helpers -/

theorem evPid_settleEv (pid : Nat) (o : Outcome) : evPid (settleEv pid o) = pid := by
  cases o <;> rfl

theorem isSettleEv_settleEv (pid : Nat) (o : Outcome) : isSettleEv (settleEv pid o) = true := by
  cases o <;> rfl

theorem isDispatchEv_settleEv (pid : Nat) (o : Outcome) :
    isDispatchEv (settleEv pid o) = false := by
  cases o <;> rfl

theorem dispatchedPids_settleEv (pid : Nat) (o : Outcome) :
    dispatchedPids [settleEv pid o] = [] := by
  cases o <;> rfl

theorem submittedPids_settleEv (pid : Nat) (o : Outcome) :
    submittedPids [settleEv pid o] = [] := by
  cases o <;> rfl

theorem startTimes_settleEv (pid : Nat) (o : Outcome) :
    startTimes [settleEv pid o] = [] := by
  cases o <;> rfl

theorem submittedPids_append (l1 l2 : List REv) :
    submittedPids (l1 ++ l2) = submittedPids l1 ++ submittedPids l2 :=
  List.filterMap_append _ _ _

theorem dispatchedPids_append (l1 l2 : List REv) :
    dispatchedPids (l1 ++ l2) = dispatchedPids l1 ++ dispatchedPids l2 :=
  List.filterMap_append _ _ _

theorem startTimes_append (l1 l2 : List REv) :
    startTimes (l1 ++ l2) = startTimes l1 ++ startTimes l2 :=
  List.filterMap_append _ _ _

theorem pidEvents_append (l1 l2 : List REv) (pid : Nat) :
    pidEvents (l1 ++ l2) pid = pidEvents l1 pid ++ pidEvents l2 pid :=
  List.filter_append _ _

/-- Transport a per-promise invariant along equal observations. -/
theorem pidInv_congr {s s' : Sys} {pid : Nat}
    (he : pidEvents s'.events pid = pidEvents s.events pid)
    (hq : queueFor s' pid = queueFor s pid)
    (ht : threadsFor s' pid = threadsFor s pid)
    (h : PidInv s pid) : PidInv s' pid := by
  unfold PidInv at h ⊢
  rw [he, hq, ht]
  exact h

/-! ## Timestamp-filter helpers -/

/-- Pruning at a later cutoff absorbs pruning at an earlier one. -/
theorem filter_cutoff_compose {c d : Int} (hc : c ≤ d) (l : List Int) :
    (l.filter (fun x => decide (c < x))).filter (fun x => decide (d < x))
      = l.filter (fun x => decide (d < x)) := by
  rw [List.filter_filter]
  apply List.filter_congr
  intro x _
  by_cases hx : d < x
  · have hcx : c < x := by omega
    simp [hx, hcx]
  · simp [hx]

/-- Appending one start instant to the trace adds at most one to any window
count, and only to windows containing that instant. -/
theorem windowCount_append_one (l : List Int) (t T : Int) :
    windowCount (l ++ [t]) T
      = windowCount l T + (if T - 1000 < t ∧ t ≤ T then 1 else 0) := by
  unfold windowCount
  rw [List.filter_append]
  by_cases h1 : T - 1000 < t
  · by_cases h2 : t ≤ T
    · simp [h1, h2]
    · simp [h1, h2]
  · simp [h1]

/-- Every instant counted by the window ending at T, with t ≤ T, lies inside
the trailing second before t as well whenever it is within the trailing
second before T. -/
theorem windowCount_le_pruned (l : List Int) (t T : Int) (ht : t ≤ T) :
    windowCount l T ≤ (l.filter (fun x => decide (t - 1000 < x))).length := by
  unfold windowCount
  apply length_filter_mono
  intro a _ ha
  have h1 : T - 1000 < a := by
    have := (Bool.and_eq_true _ _).mp ha
    exact of_decide_eq_true this.1
  exact decide_eq_true (by omega)

/-- The guarded window bound: if every window of the old trace respects the
limit and the newly granted instant saw strictly fewer than rps instants in
its own trailing second, every window of the extended trace respects the
limit. -/
theorem window_ok_extend {l : List Int} {rps t : Int}
    (hold : ∀ T : Int, (windowCount l T : Int) ≤ rps)
    (hlt : ((l.filter (fun x => decide (t - 1000 < x))).length : Int) < rps) :
    ∀ T : Int, (windowCount (l ++ [t]) T : Int) ≤ rps := by
  intro T
  rw [windowCount_append_one]
  by_cases hmem : T - 1000 < t ∧ t ≤ T
  · have hb := windowCount_le_pruned l t T hmem.2
    rw [if_pos hmem]
    push_cast
    omega
  · rw [if_neg hmem]
    simpa using hold T

/-! ## Unique-identity splitting of the in-flight list -/

/-- An in-flight invocation with a unique identity splits the list into the
part before it and the part after it, with no other invocation sharing its
identity. -/
theorem tid_split {l : List Flight} {fl : Flight}
    (hnd : (l.map Flight.tid).Nodup) (hmem : fl ∈ l) :
    ∃ l1 l2, l = l1 ++ fl :: l2
      ∧ (∀ x ∈ l1, ¬ x.tid = fl.tid) ∧ (∀ x ∈ l2, ¬ x.tid = fl.tid) := by
  obtain ⟨l1, l2, rfl⟩ := List.append_of_mem hmem
  refine ⟨l1, l2, rfl, ?_, ?_⟩
  · intro x hx hx2
    rw [List.map_append, List.map_cons] at hnd
    rcases List.nodup_append.mp hnd with ⟨-, -, hdisj⟩
    exact hdisj (List.mem_map_of_mem _ hx) (by rw [hx2]; exact List.mem_cons_self _ _)
  · intro x hx hx2
    rw [List.map_append, List.map_cons] at hnd
    rcases List.nodup_append.mp hnd with ⟨-, hnd2, -⟩
    rcases List.nodup_cons.mp hnd2 with ⟨hnotin, -⟩
    exact hnotin (by rw [← hx2]; exact List.mem_map_of_mem _ hx)

/-- find? by identity locates exactly the split invocation. -/
theorem find_tid_split {l1 l2 : List Flight} {fl : Flight}
    (h1 : ∀ x ∈ l1, ¬ x.tid = fl.tid) :
    (l1 ++ fl :: l2).find? (fun x => decide (x.tid = fl.tid)) = some fl := by
  rw [List.find?_append]
  have hnone : l1.find? (fun x => decide (x.tid = fl.tid)) = none := by
    rw [List.find?_eq_none]
    intro x hx
    simpa using h1 x hx
  rw [hnone]
  simp [List.find?_cons]

/-- Removing by identity removes exactly the split invocation. -/
theorem filter_tid_split {l1 l2 : List Flight} {fl : Flight}
    (h1 : ∀ x ∈ l1, ¬ x.tid = fl.tid) (h2 : ∀ x ∈ l2, ¬ x.tid = fl.tid) :
    (l1 ++ fl :: l2).filter (fun x => decide (¬ x.tid = fl.tid)) = l1 ++ l2 := by
  rw [List.filter_append, List.filter_cons]
  have hfl : (decide (¬ fl.tid = fl.tid)) = false := by simp
  rw [hfl]
  have e1 : l1.filter (fun x => decide (¬ x.tid = fl.tid)) = l1 :=
    List.filter_eq_self.mpr (fun x hx => decide_eq_true (h1 x hx))
  have e2 : l2.filter (fun x => decide (¬ x.tid = fl.tid)) = l2 :=
    List.filter_eq_self.mpr (fun x hx => decide_eq_true (h2 x hx))
  rw [e1, e2]
  simp

/-- Re-phasing by identity touches exactly the split invocation. -/
theorem setPhase_split {l1 l2 : List Flight} {fl : Flight} (ph : FlightPhase)
    (h1 : ∀ x ∈ l1, ¬ x.tid = fl.tid) (h2 : ∀ x ∈ l2, ¬ x.tid = fl.tid) :
    setPhase (l1 ++ fl :: l2) fl.tid ph = l1 ++ { fl with phase := ph } :: l2 := by
  unfold setPhase
  rw [List.map_append, List.map_cons]
  have e1 : l1.map (fun x => if x.tid = fl.tid then { x with phase := ph } else x) = l1 := by
    rw [List.map_congr_left (fun x hx => if_neg (h1 x hx))]
    exact List.map_id _
  have e2 : l2.map (fun x => if x.tid = fl.tid then { x with phase := ph } else x) = l2 := by
    rw [List.map_congr_left (fun x hx => if_neg (h2 x hx))]
    exact List.map_id _
  rw [e1, e2, if_pos rfl]

/-- setPhase never changes identities. -/
theorem setPhase_map_tid (l : List Flight) (tid : Nat) (ph : FlightPhase) :
    (setPhase l tid ph).map Flight.tid = l.map Flight.tid := by
  unfold setPhase
  rw [List.map_map]
  apply List.map_congr_left
  intro x _
  by_cases hx : x.tid = tid <;> simp [hx]

/-- setPhase never changes the carried entries. -/
theorem mem_setPhase {l : List Flight} {tid : Nat} {ph : FlightPhase} {y : Flight}
    (hy : y ∈ setPhase l tid ph) :
    ∃ x ∈ l, y.tid = x.tid ∧ y.item = x.item := by
  unfold setPhase at hy
  rcases List.mem_map.mp hy with ⟨x, hx, hxy⟩
  refine ⟨x, hx, ?_⟩
  by_cases h : x.tid = tid
  · rw [if_pos h] at hxy
    rw [← hxy]
    exact ⟨rfl, rfl⟩
  · rw [if_neg h] at hxy
    rw [← hxy]
    exact ⟨rfl, rfl⟩

theorem setPhase_length (l : List Flight) (tid : Nat) (ph : FlightPhase) :
    (setPhase l tid ph).length = l.length := List.length_map _ _

/-! ## Characterization of one process() invocation -/

/-- The guard on line 40: saturation or an empty queue mean no effect. -/
theorem processSync_block {s : Sys}
    (h : s.rq.maxConcurrent ≤ s.rq.activeRequests ∨ s.rq.queue = []) :
    processSync s = s := by
  unfold processSync
  rcases h with h | h
  · rw [if_pos h]
  · by_cases h2 : s.rq.maxConcurrent ≤ s.rq.activeRequests
    · rw [if_pos h2]
    · rw [if_neg h2, h]

/-- With capacity and a non-empty queue, process() dispatches the head. -/
theorem processSync_dispatch {s : Sys} {it : Item} {rest : List Item}
    (hq : s.rq.queue = it :: rest)
    (hlt : s.rq.activeRequests < s.rq.maxConcurrent) :
    processSync s = dispatchResult s it rest := by
  unfold processSync
  rw [if_neg (by omega), hq]

/-- The dispatched state when the first clearance check grants. -/
theorem dispatchResult_grant_eq {s : Sys} {it : Item} {rest : List Item} {log : List Int}
    (hr : waitForRateLimitStep s.rq.requestsPerSecond s.rq.requestTimestamps s.now
      = (log, none)) :
    dispatchResult s it rest =
      { rq := { maxConcurrent := s.rq.maxConcurrent
                requestsPerSecond := s.rq.requestsPerSecond
                activeRequests := s.rq.activeRequests + 1
                queue := rest
                requestTimestamps := log }
        threads := s.threads ++ [⟨s.nextTid, it, FlightPhase.running⟩]
        nextPid := s.nextPid
        nextTid := s.nextTid + 1
        now := s.now
        events := s.events ++ [REv.dispatchE it.pid, REv.startE it.pid s.now] } := by
  unfold dispatchResult
  rw [hr]

/-- The dispatched state when the first clearance check must wait. -/
theorem dispatchResult_sleep_eq {s : Sys} {it : Item} {rest : List Item} {log : List Int}
    {w : Int}
    (hr : waitForRateLimitStep s.rq.requestsPerSecond s.rq.requestTimestamps s.now
      = (log, some w)) :
    dispatchResult s it rest =
      { rq := { maxConcurrent := s.rq.maxConcurrent
                requestsPerSecond := s.rq.requestsPerSecond
                activeRequests := s.rq.activeRequests + 1
                queue := rest
                requestTimestamps := log }
        threads := s.threads ++ [⟨s.nextTid, it, FlightPhase.sleeping w⟩]
        nextPid := s.nextPid
        nextTid := s.nextTid + 1
        now := s.now
        events := s.events ++ [REv.dispatchE it.pid] } := by
  unfold dispatchResult
  rw [hr]

/-! ## Invariant preservation: dispatch with immediate clearance -/

theorem sysInv_dispatch_grant {s : Sys} {it : Item} {rest : List Item} {log : List Int}
    (h : SysInv s) (hq : s.rq.queue = it :: rest)
    (hlt : s.rq.activeRequests < s.rq.maxConcurrent)
    (hr : waitForRateLimitStep s.rq.requestsPerSecond s.rq.requestTimestamps s.now
      = (log, none)) :
    SysInv (dispatchResult s it rest) := by
  have hit : it ∈ s.rq.queue := by rw [hq]; exact List.mem_cons_self _ _
  have hitpid : it.pid < s.nextPid := h.qpids_lt it hit
  obtain ⟨c, hc, hrts⟩ := h.log_eq
  have hl : log
      = (startTimes s.events).filter (fun x => decide (s.now - 1000 < x)) ++ [s.now] := by
    have h2 := waitStep_grant_log hr
    rw [h2, hrts, filter_cutoff_compose hc]
  have hrest_lt : ∀ it2 ∈ rest, it.pid < it2.pid := by
    have hs := h.queue_sorted
    rw [hq, List.map_cons] at hs
    have h3 := (List.sorted_cons.mp hs).1
    intro it2 h2
    exact h3 _ (List.mem_map_of_mem _ h2)
  rw [dispatchResult_grant_eq hr]
  refine ⟨?_, ?_, ?_, ?_, ?_, ?_, ?_, ?_, ?_, ?_, ?_, ?_, ?_, ?_, ?_, ?_, ?_⟩
  · -- active_eq
    simp only [List.length_append, List.length_cons, List.length_nil]
    have ha := h.active_eq
    push_cast
    omega
  · -- active_cap
    simp only []
    left
    omega
  · -- tids_nodup
    simp only [List.map_append, List.map_cons, List.map_nil]
    refine List.nodup_append.mpr ⟨h.tids_nodup, List.nodup_singleton _, ?_⟩
    intro a ha hb
    rcases List.mem_map.mp ha with ⟨fl, hfl, rfl⟩
    rcases List.mem_singleton.mp hb with h2
    exact absurd h2 (by have := h.tids_lt fl hfl; omega)
  · -- tids_lt
    simp only []
    intro fl hfl
    rcases List.mem_append.mp hfl with h2 | h2
    · have := h.tids_lt fl h2
      omega
    · rcases List.mem_singleton.mp h2 with rfl
      exact Nat.lt_succ_self _
  · -- qpids_lt
    simp only []
    intro it2 h2
    exact h.qpids_lt it2 (by rw [hq]; exact List.mem_cons_of_mem _ h2)
  · -- tpids_lt
    simp only []
    intro fl hfl
    rcases List.mem_append.mp hfl with h2 | h2
    · exact h.tpids_lt fl h2
    · rcases List.mem_singleton.mp h2 with rfl
      exact hitpid
  · -- queue_sorted
    simp only []
    have hs := h.queue_sorted
    rw [hq, List.map_cons] at hs
    exact (List.sorted_cons.mp hs).2
  · -- disp_sorted
    simp only []
    rw [dispatchedPids_append]
    refine List.pairwise_append.mpr ⟨h.disp_sorted, ?_, ?_⟩
    · exact List.pairwise_singleton _ _
    · intro a ha b hb
      have hb2 : b = it.pid := List.mem_singleton.mp hb
      rw [hb2]
      exact h.disp_lt_queue a ha it hit
  · -- disp_lt_queue
    simp only []
    rw [dispatchedPids_append]
    intro p hp it2 h2
    rcases List.mem_append.mp hp with h3 | h3
    · exact h.disp_lt_queue p h3 it2 (by rw [hq]; exact List.mem_cons_of_mem _ h2)
    · rcases List.mem_singleton.mp h3 with rfl
      exact hrest_lt it2 h2
  · -- disp_lt_next
    simp only []
    rw [dispatchedPids_append]
    intro p hp
    rcases List.mem_append.mp hp with h3 | h3
    · exact h.disp_lt_next p h3
    · rcases List.mem_singleton.mp h3 with rfl
      exact hitpid
  · -- submits_eq
    simp only []
    rw [submittedPids_append]
    have h2 : submittedPids [REv.dispatchE it.pid, REv.startE it.pid s.now] = [] := rfl
    rw [h2, List.append_nil]
    exact h.submits_eq
  · -- starts_le_now
    simp only []
    rw [startTimes_append]
    intro x hx
    rcases List.mem_append.mp hx with h2 | h2
    · exact h.starts_le_now x h2
    · have h3 : x = s.now := by simpa [startTimes] using h2
      omega
  · -- log_eq
    refine ⟨s.now - 1000, le_refl _, ?_⟩
    simp only []
    rw [startTimes_append]
    have h2 : startTimes [REv.dispatchE it.pid, REv.startE it.pid s.now] = [s.now] := rfl
    rw [h2, List.filter_append, hl]
    have h3 : List.filter (fun x => decide (s.now - 1000 < x)) [s.now] = [s.now] := by
      simp
    rw [h3]
  · -- window_ok
    simp only []
    intro hrps T
    rw [startTimes_append]
    have h2 : startTimes [REv.dispatchE it.pid, REv.startE it.pid s.now] = [s.now] := rfl
    rw [h2]
    refine window_ok_extend (h.window_ok hrps) ?_ T
    have h3 := waitStep_grant_lt hrps hr
    rw [hrts, filter_cutoff_compose hc] at h3
    exact h3
  · -- wake_le
    simp only []
    intro fl hfl w hw
    rcases List.mem_append.mp hfl with h2 | h2
    · exact h.wake_le fl h2 w hw
    · rcases List.mem_singleton.mp h2 with rfl
      simp at hw
  · -- fresh
    simp only []
    intro pid hpid
    rw [pidEvents_append]
    have h2 : pidEvents [REv.dispatchE it.pid, REv.startE it.pid s.now] pid = [] := by
      simp [pidEvents, evPid]
      omega
    rw [h2, List.append_nil]
    exact h.fresh pid hpid
  · -- pid_inv
    intro pid
    by_cases hpid : pid = it.pid
    · subst hpid
      have hinq : it ∈ queueFor s it.pid := List.mem_filter.mpr ⟨hit, by simp⟩
      have hq2 : queueFor s it.pid
          = it :: rest.filter (fun x => decide (x.pid = it.pid)) := by
        unfold queueFor
        rw [hq, List.filter_cons, if_pos (by simp)]
      rcases h.pid_inv it.pid with ⟨he, hq0, ht0⟩ | ⟨o, he, hq0, ht0⟩
        | ⟨o, tid, w, he, hq0, ht0⟩ | ⟨o, tid, t, he, hq0, ht0⟩ | ⟨o, t, he, hq0, ht0⟩
      · rw [hq0] at hinq; cases hinq
      · -- old status: Queued
        have hrow : it :: rest.filter (fun x => decide (x.pid = it.pid)) = [⟨it.pid, o⟩] := by
          rw [← hq2, hq0]
        have hito : it = ⟨it.pid, o⟩ := (List.cons.injEq _ _ _ _).mp hrow |>.1
        have hrestF : rest.filter (fun x => decide (x.pid = it.pid)) = [] :=
          (List.cons.injEq _ _ _ _).mp hrow |>.2
        have ho : o = it.outcome := by rw [hito]
        refine Or.inr (Or.inr (Or.inr (Or.inl ⟨it.outcome, s.nextTid, s.now, ?_, ?_, ?_⟩)))
        · unfold pidEvents at he ⊢
          simp only []
          rw [List.filter_append, he, ho]
          have h2 : List.filter (fun e => decide (evPid e = it.pid))
              [REv.dispatchE it.pid, REv.startE it.pid s.now]
              = [REv.dispatchE it.pid, REv.startE it.pid s.now] := by
            simp [evPid]
          rw [h2]
          rfl
        · unfold queueFor
          simp only []
          exact hrestF
        · unfold threadsFor at ht0 ⊢
          simp only []
          rw [List.filter_append, ht0]
          have h2 : List.filter (fun fl : Flight => decide (fl.item.pid = it.pid))
              ([⟨s.nextTid, it, FlightPhase.running⟩] : List Flight)
              = [⟨s.nextTid, it, FlightPhase.running⟩] := by
            simp
          rw [h2]
          simp only [List.nil_append]
      · rw [hq0] at hinq; cases hinq
      · rw [hq0] at hinq; cases hinq
      · rw [hq0] at hinq; cases hinq
    · -- untouched promise ids
      refine pidInv_congr ?_ ?_ ?_ (h.pid_inv pid)
      · simp only []
        rw [pidEvents_append]
        have h2 : pidEvents [REv.dispatchE it.pid, REv.startE it.pid s.now] pid = [] := by
          simp [pidEvents, evPid]
          intro h3
          exact absurd h3.symm hpid
        rw [h2, List.append_nil]
      · unfold queueFor
        simp only []
        rw [hq, List.filter_cons, if_neg (by simp; intro h3; exact hpid h3.symm)]
      · unfold threadsFor
        simp only []
        rw [List.filter_append]
        have h2 : List.filter (fun fl : Flight => decide (fl.item.pid = pid))
            ([⟨s.nextTid, it, FlightPhase.running⟩] : List Flight) = [] := by
          simp
          intro h3
          exact hpid h3.symm
        rw [h2, List.append_nil]

/-! ## Invariant preservation: dispatch that sleeps in the limiter -/

theorem sysInv_dispatch_sleep {s : Sys} {it : Item} {rest : List Item} {log : List Int}
    {w : Int}
    (h : SysInv s) (hq : s.rq.queue = it :: rest)
    (hlt : s.rq.activeRequests < s.rq.maxConcurrent)
    (hr : waitForRateLimitStep s.rq.requestsPerSecond s.rq.requestTimestamps s.now
      = (log, some w)) :
    SysInv (dispatchResult s it rest) := by
  have hit : it ∈ s.rq.queue := by rw [hq]; exact List.mem_cons_self _ _
  have hitpid : it.pid < s.nextPid := h.qpids_lt it hit
  obtain ⟨c, hc, hrts⟩ := h.log_eq
  obtain ⟨hlog, ⟨tl2, htl2⟩, hlen⟩ := waitStep_sleep hr
  have hl : log = (startTimes s.events).filter (fun x => decide (s.now - 1000 < x)) := by
    rw [hlog, hrts, filter_cutoff_compose hc]
  have hwle : w ≤ s.now + 1000 := by
    have hmem : w - 1000 ∈ log := by rw [htl2]; exact List.mem_cons_self _ _
    rw [hl] at hmem
    have h2 := (List.mem_filter.mp hmem).1
    have h3 := h.starts_le_now _ h2
    omega
  have hrest_lt : ∀ it2 ∈ rest, it.pid < it2.pid := by
    have hs := h.queue_sorted
    rw [hq, List.map_cons] at hs
    have h3 := (List.sorted_cons.mp hs).1
    intro it2 h2
    exact h3 _ (List.mem_map_of_mem _ h2)
  rw [dispatchResult_sleep_eq hr]
  refine ⟨?_, ?_, ?_, ?_, ?_, ?_, ?_, ?_, ?_, ?_, ?_, ?_, ?_, ?_, ?_, ?_, ?_⟩
  · -- active_eq
    simp only [List.length_append, List.length_cons, List.length_nil]
    have ha := h.active_eq
    push_cast
    omega
  · -- active_cap
    simp only []
    left
    omega
  · -- tids_nodup
    simp only [List.map_append, List.map_cons, List.map_nil]
    refine List.nodup_append.mpr ⟨h.tids_nodup, List.nodup_singleton _, ?_⟩
    intro a ha hb
    rcases List.mem_map.mp ha with ⟨fl, hfl, rfl⟩
    rcases List.mem_singleton.mp hb with h2
    exact absurd h2 (by have := h.tids_lt fl hfl; omega)
  · -- tids_lt
    simp only []
    intro fl hfl
    rcases List.mem_append.mp hfl with h2 | h2
    · have := h.tids_lt fl h2
      omega
    · rcases List.mem_singleton.mp h2 with rfl
      exact Nat.lt_succ_self _
  · -- qpids_lt
    simp only []
    intro it2 h2
    exact h.qpids_lt it2 (by rw [hq]; exact List.mem_cons_of_mem _ h2)
  · -- tpids_lt
    simp only []
    intro fl hfl
    rcases List.mem_append.mp hfl with h2 | h2
    · exact h.tpids_lt fl h2
    · rcases List.mem_singleton.mp h2 with rfl
      exact hitpid
  · -- queue_sorted
    simp only []
    have hs := h.queue_sorted
    rw [hq, List.map_cons] at hs
    exact (List.sorted_cons.mp hs).2
  · -- disp_sorted
    simp only []
    rw [dispatchedPids_append]
    refine List.pairwise_append.mpr ⟨h.disp_sorted, ?_, ?_⟩
    · exact List.pairwise_singleton _ _
    · intro a ha b hb
      have hb2 : b = it.pid := List.mem_singleton.mp hb
      rw [hb2]
      exact h.disp_lt_queue a ha it hit
  · -- disp_lt_queue
    simp only []
    rw [dispatchedPids_append]
    intro p hp it2 h2
    rcases List.mem_append.mp hp with h3 | h3
    · exact h.disp_lt_queue p h3 it2 (by rw [hq]; exact List.mem_cons_of_mem _ h2)
    · rcases List.mem_singleton.mp h3 with rfl
      exact hrest_lt it2 h2
  · -- disp_lt_next
    simp only []
    rw [dispatchedPids_append]
    intro p hp
    rcases List.mem_append.mp hp with h3 | h3
    · exact h.disp_lt_next p h3
    · rcases List.mem_singleton.mp h3 with rfl
      exact hitpid
  · -- submits_eq
    simp only []
    rw [submittedPids_append]
    have h2 : submittedPids [REv.dispatchE it.pid] = [] := rfl
    rw [h2, List.append_nil]
    exact h.submits_eq
  · -- starts_le_now
    simp only []
    rw [startTimes_append]
    intro x hx
    rcases List.mem_append.mp hx with h2 | h2
    · exact h.starts_le_now x h2
    · cases h2
  · -- log_eq
    refine ⟨s.now - 1000, le_refl _, ?_⟩
    simp only []
    rw [startTimes_append]
    have h2 : startTimes [REv.dispatchE it.pid] = [] := rfl
    rw [h2, List.append_nil]
    exact hl
  · -- window_ok
    simp only []
    intro hrps T
    rw [startTimes_append]
    have h2 : startTimes [REv.dispatchE it.pid] = [] := rfl
    rw [h2, List.append_nil]
    exact h.window_ok hrps T
  · -- wake_le
    simp only []
    intro fl hfl w2 hw2
    rcases List.mem_append.mp hfl with h2 | h2
    · exact h.wake_le fl h2 w2 hw2
    · rcases List.mem_singleton.mp h2 with rfl
      have h3 : w = w2 := by
        have := hw2
        simp at this
        exact this
      omega
  · -- fresh
    simp only []
    intro pid hpid
    rw [pidEvents_append]
    have h2 : pidEvents [REv.dispatchE it.pid] pid = [] := by
      simp [pidEvents, evPid]
      omega
    rw [h2, List.append_nil]
    exact h.fresh pid hpid
  · -- pid_inv
    intro pid
    by_cases hpid : pid = it.pid
    · subst hpid
      have hinq : it ∈ queueFor s it.pid := List.mem_filter.mpr ⟨hit, by simp⟩
      have hq2 : queueFor s it.pid
          = it :: rest.filter (fun x => decide (x.pid = it.pid)) := by
        unfold queueFor
        rw [hq, List.filter_cons, if_pos (by simp)]
      rcases h.pid_inv it.pid with ⟨he, hq0, ht0⟩ | ⟨o, he, hq0, ht0⟩
        | ⟨o, tid, w3, he, hq0, ht0⟩ | ⟨o, tid, t, he, hq0, ht0⟩ | ⟨o, t, he, hq0, ht0⟩
      · rw [hq0] at hinq; cases hinq
      · -- old status: Queued, new status: Dispatched-sleeping
        have hrow : it :: rest.filter (fun x => decide (x.pid = it.pid)) = [⟨it.pid, o⟩] := by
          rw [← hq2, hq0]
        have hito : it = ⟨it.pid, o⟩ := (List.cons.injEq _ _ _ _).mp hrow |>.1
        have hrestF : rest.filter (fun x => decide (x.pid = it.pid)) = [] :=
          (List.cons.injEq _ _ _ _).mp hrow |>.2
        have ho : o = it.outcome := by rw [hito]
        refine Or.inr (Or.inr (Or.inl ⟨it.outcome, s.nextTid, w, ?_, ?_, ?_⟩))
        · unfold pidEvents at he ⊢
          simp only []
          rw [List.filter_append, he, ho]
          have h2 : List.filter (fun e => decide (evPid e = it.pid)) [REv.dispatchE it.pid]
              = [REv.dispatchE it.pid] := by
            simp [evPid]
          rw [h2]
          rfl
        · unfold queueFor
          simp only []
          exact hrestF
        · unfold threadsFor at ht0 ⊢
          simp only []
          rw [List.filter_append, ht0]
          have h2 : List.filter (fun fl : Flight => decide (fl.item.pid = it.pid))
              ([⟨s.nextTid, it, FlightPhase.sleeping w⟩] : List Flight)
              = [⟨s.nextTid, it, FlightPhase.sleeping w⟩] := by
            simp
          rw [h2]
          simp only [List.nil_append]
      · rw [hq0] at hinq; cases hinq
      · rw [hq0] at hinq; cases hinq
      · rw [hq0] at hinq; cases hinq
    · -- untouched promise ids
      refine pidInv_congr ?_ ?_ ?_ (h.pid_inv pid)
      · simp only []
        rw [pidEvents_append]
        have h2 : pidEvents [REv.dispatchE it.pid] pid = [] := by
          simp [pidEvents, evPid]
          intro h3
          exact absurd h3.symm hpid
        rw [h2, List.append_nil]
      · unfold queueFor
        simp only []
        rw [hq, List.filter_cons, if_neg (by simp; intro h3; exact hpid h3.symm)]
      · unfold threadsFor
        simp only []
        rw [List.filter_append]
        have h2 : List.filter (fun fl : Flight => decide (fl.item.pid = pid))
            ([⟨s.nextTid, it, FlightPhase.sleeping w⟩] : List Flight) = [] := by
          simp
          intro h3
          exact hpid h3.symm
        rw [h2, List.append_nil]

/-! ## Invariant preservation: one process() invocation -/

theorem append_cons_eq_singleton {α : Type} {l1 l2 : List α} {a b : α}
    (h : l1 ++ a :: l2 = [b]) : l1 = [] ∧ a = b ∧ l2 = [] := by
  cases l1 with
  | nil =>
    simp only [List.nil_append] at h
    have h2 := (List.cons.injEq _ _ _ _).mp h
    exact ⟨rfl, h2.1, h2.2⟩
  | cons x xs =>
    simp only [List.cons_append] at h
    have h2 := (List.cons.injEq _ _ _ _).mp h
    exact absurd h2.2 (by simp)

theorem sysInv_processSync {s : Sys} (h : SysInv s) : SysInv (processSync s) := by
  by_cases hg : s.rq.maxConcurrent ≤ s.rq.activeRequests
  · rw [processSync_block (Or.inl hg)]
    exact h
  · cases hq : s.rq.queue with
    | nil =>
      rw [processSync_block (Or.inr hq)]
      exact h
    | cons it rest =>
      rw [processSync_dispatch hq (by omega)]
      cases hr : waitForRateLimitStep s.rq.requestsPerSecond s.rq.requestTimestamps s.now with
      | mk log r =>
        cases r with
        | none => exact sysInv_dispatch_grant h hq (by omega) hr
        | some w => exact sysInv_dispatch_sleep h hq (by omega) hr

/-- After any process() invocation, a non-empty queue coexisting with any
gate capacity implies at least one in-flight invocation. -/
theorem queueLive_processSync {s : Sys}
    (hae : s.rq.activeRequests = (s.threads.length : Int)) :
    QueueLive (processSync s) := by
  by_cases hg : s.rq.maxConcurrent ≤ s.rq.activeRequests
  · rw [processSync_block (Or.inl hg)]
    intro hmax hqne hthr
    rw [hthr] at hae
    simp at hae
    omega
  · cases hq : s.rq.queue with
    | nil =>
      rw [processSync_block (Or.inr hq)]
      intro hmax hqne
      exact absurd hq hqne
    | cons it rest =>
      rw [processSync_dispatch hq (by omega)]
      cases hr : waitForRateLimitStep s.rq.requestsPerSecond s.rq.requestTimestamps s.now with
      | mk log r =>
        cases r with
        | none =>
          rw [dispatchResult_grant_eq hr]
          intro _ _
          simp
        | some w =>
          rw [dispatchResult_sleep_eq hr]
          intro _ _
          simp

/-- process() never touches the configured limits, the clock, the submission
counter; it only appends to the trace. -/
theorem processSync_params (s : Sys) :
    (processSync s).rq.maxConcurrent = s.rq.maxConcurrent
    ∧ (processSync s).rq.requestsPerSecond = s.rq.requestsPerSecond
    ∧ (processSync s).now = s.now
    ∧ (processSync s).nextPid = s.nextPid
    ∧ (∃ tl, (processSync s).events = s.events ++ tl) := by
  by_cases hg : s.rq.maxConcurrent ≤ s.rq.activeRequests
  · rw [processSync_block (Or.inl hg)]
    exact ⟨rfl, rfl, rfl, rfl, ⟨[], (List.append_nil _).symm⟩⟩
  · cases hq : s.rq.queue with
    | nil =>
      rw [processSync_block (Or.inr hq)]
      exact ⟨rfl, rfl, rfl, rfl, ⟨[], (List.append_nil _).symm⟩⟩
    | cons it rest =>
      rw [processSync_dispatch hq (by omega)]
      cases hr : waitForRateLimitStep s.rq.requestsPerSecond s.rq.requestTimestamps s.now with
      | mk log r =>
        cases r with
        | none =>
          rw [dispatchResult_grant_eq hr]
          exact ⟨rfl, rfl, rfl, rfl, ⟨_, rfl⟩⟩
        | some w =>
          rw [dispatchResult_sleep_eq hr]
          exact ⟨rfl, rfl, rfl, rfl, ⟨_, rfl⟩⟩

/-! ## Invariant preservation: the enqueue part of add() -/

theorem sysInv_enqueue {s : Sys} {o : Outcome} {t : Int}
    (h : SysInv s) (hnow : s.now ≤ t) :
    SysInv { s with
      rq := { s.rq with queue := s.rq.queue ++ [⟨s.nextPid, o⟩] }
      nextPid := s.nextPid + 1
      now := t
      events := s.events ++ [REv.submitE s.nextPid o] } := by
  refine ⟨?_, ?_, ?_, ?_, ?_, ?_, ?_, ?_, ?_, ?_, ?_, ?_, ?_, ?_, ?_, ?_, ?_⟩
  · exact h.active_eq
  · exact h.active_cap
  · exact h.tids_nodup
  · simp only []
    intro fl hfl
    exact h.tids_lt fl hfl
  · -- qpids_lt
    simp only []
    intro it2 h2
    rcases List.mem_append.mp h2 with h3 | h3
    · have := h.qpids_lt it2 h3
      omega
    · rcases List.mem_singleton.mp h3 with rfl
      exact Nat.lt_succ_self _
  · -- tpids_lt
    simp only []
    intro fl hfl
    have := h.tpids_lt fl hfl
    omega
  · -- queue_sorted
    simp only []
    rw [List.map_append]
    refine List.pairwise_append.mpr ⟨h.queue_sorted, ?_, ?_⟩
    · exact List.pairwise_singleton _ _
    · intro a ha b hb
      rcases List.mem_map.mp ha with ⟨it2, hit2, rfl⟩
      have hb2 : b = s.nextPid := by simpa using hb
      rw [hb2]
      exact h.qpids_lt it2 hit2
  · -- disp_sorted
    simp only []
    rw [dispatchedPids_append]
    have h2 : dispatchedPids [REv.submitE s.nextPid o] = [] := rfl
    rw [h2, List.append_nil]
    exact h.disp_sorted
  · -- disp_lt_queue
    simp only []
    rw [dispatchedPids_append]
    have h2 : dispatchedPids [REv.submitE s.nextPid o] = [] := rfl
    rw [h2, List.append_nil]
    intro p hp it2 h3
    rcases List.mem_append.mp h3 with h4 | h4
    · exact h.disp_lt_queue p hp it2 h4
    · rcases List.mem_singleton.mp h4 with rfl
      exact h.disp_lt_next p hp
  · -- disp_lt_next
    simp only []
    rw [dispatchedPids_append]
    have h2 : dispatchedPids [REv.submitE s.nextPid o] = [] := rfl
    rw [h2, List.append_nil]
    intro p hp
    have := h.disp_lt_next p hp
    omega
  · -- submits_eq
    simp only []
    rw [submittedPids_append]
    have h2 : submittedPids [REv.submitE s.nextPid o] = [s.nextPid] := rfl
    rw [h2, h.submits_eq, List.range_succ]
  · -- starts_le_now
    simp only []
    rw [startTimes_append]
    have h2 : startTimes [REv.submitE s.nextPid o] = [] := rfl
    rw [h2, List.append_nil]
    intro x hx
    have := h.starts_le_now x hx
    omega
  · -- log_eq
    obtain ⟨c, hc, hrts⟩ := h.log_eq
    refine ⟨c, ?_, ?_⟩
    · simp only []
      omega
    simp only []
    rw [startTimes_append]
    have h2 : startTimes [REv.submitE s.nextPid o] = [] := rfl
    rw [h2, List.append_nil]
    exact hrts
  · -- window_ok
    simp only []
    intro hrps T
    rw [startTimes_append]
    have h2 : startTimes [REv.submitE s.nextPid o] = [] := rfl
    rw [h2, List.append_nil]
    exact h.window_ok hrps T
  · -- wake_le
    simp only []
    intro fl hfl w hw
    have := h.wake_le fl hfl w hw
    omega
  · -- fresh
    simp only []
    intro pid hpid
    rw [pidEvents_append]
    have h2 : pidEvents [REv.submitE s.nextPid o] pid = [] := by
      simp [pidEvents, evPid]
      omega
    rw [h2, List.append_nil]
    exact h.fresh pid (by omega)
  · -- pid_inv
    intro pid
    by_cases hpid : pid = s.nextPid
    · subst hpid
      have hqf : queueFor s s.nextPid = [] := by
        unfold queueFor
        rw [List.filter_eq_nil_iff]
        intro it2 h2
        have := h.qpids_lt it2 h2
        simp
        omega
      have htf : threadsFor s s.nextPid = [] := by
        unfold threadsFor
        rw [List.filter_eq_nil_iff]
        intro fl h2
        have := h.tpids_lt fl h2
        simp
        omega
      have hef : pidEvents s.events s.nextPid = [] := h.fresh s.nextPid (le_refl _)
      refine Or.inr (Or.inl ⟨o, ?_, ?_, ?_⟩)
      · unfold pidEvents at hef ⊢
        simp only []
        rw [List.filter_append, hef]
        have h2 : List.filter (fun e => decide (evPid e = s.nextPid))
            [REv.submitE s.nextPid o] = [REv.submitE s.nextPid o] := by
          simp [evPid]
        rw [h2]
        rfl
      · unfold queueFor at hqf ⊢
        simp only []
        rw [List.filter_append, hqf]
        have h2 : List.filter (fun it2 : Item => decide (it2.pid = s.nextPid))
            ([⟨s.nextPid, o⟩] : List Item) = [⟨s.nextPid, o⟩] := by
          simp
        rw [h2]
        rfl
      · exact htf
    · refine pidInv_congr ?_ ?_ ?_ (h.pid_inv pid)
      · simp only []
        rw [pidEvents_append]
        have h2 : pidEvents [REv.submitE s.nextPid o] pid = [] := by
          simp [pidEvents, evPid]
          intro h3
          exact absurd h3.symm hpid
        rw [h2, List.append_nil]
      · unfold queueFor
        simp only []
        rw [List.filter_append]
        have h2 : List.filter (fun it2 : Item => decide (it2.pid = pid))
            ([⟨s.nextPid, o⟩] : List Item) = [] := by
          simp
          intro h3
          exact hpid h3.symm
        rw [h2, List.append_nil]
      · rfl

/-! ## Invariant preservation: a timer wake re-running the clearance check -/

theorem filter_pid_skip {l1 l2 : List Flight} {fl : Flight} {pid : Nat}
    (hne : ¬ fl.item.pid = pid) :
    (l1 ++ fl :: l2).filter (fun x => decide (x.item.pid = pid))
      = (l1 ++ l2).filter (fun x => decide (x.item.pid = pid)) := by
  rw [List.filter_append, List.filter_append, List.filter_cons,
    if_neg (by simpa using hne)]

theorem sysInv_wake_grant {s : Sys} {fl : Flight} {w t : Int} {log : List Int}
    (h : SysInv s) (hmem : fl ∈ s.threads) (hph : fl.phase = FlightPhase.sleeping w)
    (hnow : s.now ≤ t)
    (hr : waitForRateLimitStep s.rq.requestsPerSecond s.rq.requestTimestamps t
      = (log, none)) :
    SysInv { s with
      rq := { s.rq with requestTimestamps := log }
      threads := setPhase s.threads fl.tid FlightPhase.running
      now := t
      events := s.events ++ [REv.startE fl.item.pid t] } := by
  obtain ⟨l1, l2, hsp, hn1, hn2⟩ := tid_split h.tids_nodup hmem
  have hset : setPhase s.threads fl.tid FlightPhase.running
      = l1 ++ { fl with phase := FlightPhase.running } :: l2 := by
    rw [hsp]
    exact setPhase_split _ hn1 hn2
  have hflpid : fl.item.pid < s.nextPid := h.tpids_lt fl hmem
  obtain ⟨c, hc, hrts⟩ := h.log_eq
  have hl : log = (startTimes s.events).filter (fun x => decide (t - 1000 < x)) ++ [t] := by
    have h2 := waitStep_grant_log hr
    rw [h2, hrts, filter_cutoff_compose (by omega)]
  refine ⟨?_, ?_, ?_, ?_, ?_, ?_, ?_, ?_, ?_, ?_, ?_, ?_, ?_, ?_, ?_, ?_, ?_⟩
  · -- active_eq
    simp only [setPhase_length]
    exact h.active_eq
  · -- active_cap
    rcases h.active_cap with hcap | hcap
    · left
      exact hcap
    · rw [hcap] at hmem
      cases hmem
  · -- tids_nodup
    simp only [setPhase_map_tid]
    exact h.tids_nodup
  · -- tids_lt
    simp only []
    intro fl2 hfl2
    obtain ⟨x, hx, hxt, hxi⟩ := mem_setPhase hfl2
    rw [hxt]
    exact h.tids_lt x hx
  · -- qpids_lt
    simp only []
    exact h.qpids_lt
  · -- tpids_lt
    simp only []
    intro fl2 hfl2
    obtain ⟨x, hx, hxt, hxi⟩ := mem_setPhase hfl2
    rw [hxi]
    exact h.tpids_lt x hx
  · -- queue_sorted
    exact h.queue_sorted
  · -- disp_sorted
    simp only []
    rw [dispatchedPids_append]
    have h2 : dispatchedPids [REv.startE fl.item.pid t] = [] := rfl
    rw [h2, List.append_nil]
    exact h.disp_sorted
  · -- disp_lt_queue
    simp only []
    rw [dispatchedPids_append]
    have h2 : dispatchedPids [REv.startE fl.item.pid t] = [] := rfl
    rw [h2, List.append_nil]
    exact h.disp_lt_queue
  · -- disp_lt_next
    simp only []
    rw [dispatchedPids_append]
    have h2 : dispatchedPids [REv.startE fl.item.pid t] = [] := rfl
    rw [h2, List.append_nil]
    exact h.disp_lt_next
  · -- submits_eq
    simp only []
    rw [submittedPids_append]
    have h2 : submittedPids [REv.startE fl.item.pid t] = [] := rfl
    rw [h2, List.append_nil]
    exact h.submits_eq
  · -- starts_le_now
    simp only []
    rw [startTimes_append]
    have h2 : startTimes [REv.startE fl.item.pid t] = [t] := rfl
    rw [h2]
    intro x hx
    rcases List.mem_append.mp hx with h3 | h3
    · have := h.starts_le_now x h3
      omega
    · have h4 : x = t := by simpa using h3
      omega
  · -- log_eq
    refine ⟨t - 1000, le_refl _, ?_⟩
    simp only []
    rw [startTimes_append]
    have h2 : startTimes [REv.startE fl.item.pid t] = [t] := rfl
    rw [h2, List.filter_append, hl]
    have h3 : List.filter (fun x => decide (t - 1000 < x)) [t] = [t] := by
      simp
    rw [h3]
  · -- window_ok
    simp only []
    intro hrps T
    rw [startTimes_append]
    have h2 : startTimes [REv.startE fl.item.pid t] = [t] := rfl
    rw [h2]
    refine window_ok_extend (h.window_ok hrps) ?_ T
    have h3 := waitStep_grant_lt hrps hr
    rw [hrts, filter_cutoff_compose (by omega)] at h3
    exact h3
  · -- wake_le
    simp only []
    rw [hset]
    intro fl2 hfl2 w2 hw2
    rcases List.mem_append.mp hfl2 with h2 | h2
    · have := h.wake_le fl2 (by rw [hsp]; exact List.mem_append.mpr (Or.inl h2)) w2 hw2
      omega
    · rcases List.mem_cons.mp h2 with h3 | h3
      · rw [h3] at hw2
        simp at hw2
      · have := h.wake_le fl2
          (by rw [hsp]; exact List.mem_append.mpr (Or.inr (List.mem_cons_of_mem _ h3))) w2 hw2
        omega
  · -- fresh
    simp only []
    intro pid hpid
    rw [pidEvents_append]
    have h2 : pidEvents [REv.startE fl.item.pid t] pid = [] := by
      simp [pidEvents, evPid]
      omega
    rw [h2, List.append_nil]
    exact h.fresh pid hpid
  · -- pid_inv
    intro pid
    by_cases hpid : pid = fl.item.pid
    · subst hpid
      have hflin : fl ∈ threadsFor s fl.item.pid :=
        List.mem_filter.mpr ⟨hmem, by simp⟩
      rcases h.pid_inv fl.item.pid with ⟨he, hq0, ht0⟩ | ⟨o, he, hq0, ht0⟩
        | ⟨o, tid0, w0, he, hq0, ht0⟩ | ⟨o, tid0, t0, he, hq0, ht0⟩ | ⟨o, t0, he, hq0, ht0⟩
      · rw [ht0] at hflin; cases hflin
      · rw [ht0] at hflin; cases hflin
      · -- old status: Dispatched-sleeping; new: Dispatched-running
        have hfl2 : fl = ⟨tid0, ⟨fl.item.pid, o⟩, FlightPhase.sleeping w0⟩ := by
          rw [ht0] at hflin
          exact List.mem_singleton.mp hflin
        have ho : fl.item.outcome = o := by rw [hfl2]
        have htid0 : fl.tid = tid0 := by rw [hfl2]
        have hsplitF : threadsFor s fl.item.pid
            = l1.filter (fun x => decide (x.item.pid = fl.item.pid))
              ++ fl :: l2.filter (fun x => decide (x.item.pid = fl.item.pid)) := by
          unfold threadsFor
          rw [hsp, List.filter_append, List.filter_cons, if_pos (by simp)]
        have hparts := append_cons_eq_singleton (hsplitF.symm.trans ht0)
        refine Or.inr (Or.inr (Or.inr (Or.inl ⟨o, fl.tid, t, ?_, ?_, ?_⟩)))
        · unfold pidEvents at he ⊢
          simp only []
          rw [List.filter_append, he]
          have h2 : List.filter (fun e => decide (evPid e = fl.item.pid))
              [REv.startE fl.item.pid t] = [REv.startE fl.item.pid t] := by
            simp [evPid]
          rw [h2]
          rfl
        · exact hq0
        · unfold threadsFor
          simp only []
          rw [hset, List.filter_append, List.filter_cons, if_pos (by simp)]
          rw [hparts.1, hparts.2.2]
          have h2 : ({ fl with phase := FlightPhase.running } : Flight)
              = ⟨fl.tid, ⟨fl.item.pid, fl.item.outcome⟩, FlightPhase.running⟩ := rfl
          rw [h2, ho]
          rfl
      · -- old status Dispatched-running: impossible, fl is sleeping
        have hfl2 : fl = ⟨tid0, ⟨fl.item.pid, o⟩, FlightPhase.running⟩ := by
          rw [ht0] at hflin
          exact List.mem_singleton.mp hflin
        rw [hfl2] at hph
        cases hph
      · rw [ht0] at hflin; cases hflin
    · -- untouched promise ids
      refine pidInv_congr ?_ ?_ ?_ (h.pid_inv pid)
      · simp only []
        rw [pidEvents_append]
        have h2 : pidEvents [REv.startE fl.item.pid t] pid = [] := by
          simp [pidEvents, evPid]
          intro h3
          exact absurd h3.symm hpid
        rw [h2, List.append_nil]
      · rfl
      · unfold threadsFor
        simp only []
        rw [hset, hsp]
        have hne : ¬ fl.item.pid = pid := fun h3 => hpid h3.symm
        have h4 := @filter_pid_skip l1 l2 { fl with phase := FlightPhase.running } pid hne
        rw [h4, filter_pid_skip hne]

theorem sysInv_wake_sleep {s : Sys} {fl : Flight} {w t w2 : Int} {log : List Int}
    (h : SysInv s) (hmem : fl ∈ s.threads) (hph : fl.phase = FlightPhase.sleeping w)
    (hnow : s.now ≤ t)
    (hr : waitForRateLimitStep s.rq.requestsPerSecond s.rq.requestTimestamps t
      = (log, some w2)) :
    SysInv { s with
      rq := { s.rq with requestTimestamps := log }
      threads := setPhase s.threads fl.tid (FlightPhase.sleeping w2)
      now := t } := by
  obtain ⟨l1, l2, hsp, hn1, hn2⟩ := tid_split h.tids_nodup hmem
  have hset : setPhase s.threads fl.tid (FlightPhase.sleeping w2)
      = l1 ++ { fl with phase := FlightPhase.sleeping w2 } :: l2 := by
    rw [hsp]
    exact setPhase_split _ hn1 hn2
  obtain ⟨c, hc, hrts⟩ := h.log_eq
  obtain ⟨hlog, ⟨tl2, htl2⟩, hlen⟩ := waitStep_sleep hr
  have hl : log = (startTimes s.events).filter (fun x => decide (t - 1000 < x)) := by
    rw [hlog, hrts, filter_cutoff_compose (by omega)]
  have hwle : w2 ≤ t + 1000 := by
    have hmem2 : w2 - 1000 ∈ log := by rw [htl2]; exact List.mem_cons_self _ _
    rw [hl] at hmem2
    have h2 := (List.mem_filter.mp hmem2).1
    have h3 := h.starts_le_now _ h2
    omega
  refine ⟨?_, ?_, ?_, ?_, ?_, ?_, ?_, ?_, ?_, ?_, ?_, ?_, ?_, ?_, ?_, ?_, ?_⟩
  · simp only [setPhase_length]
    exact h.active_eq
  · rcases h.active_cap with hcap | hcap
    · left
      exact hcap
    · rw [hcap] at hmem
      cases hmem
  · simp only [setPhase_map_tid]
    exact h.tids_nodup
  · simp only []
    intro fl2 hfl2
    obtain ⟨x, hx, hxt, hxi⟩ := mem_setPhase hfl2
    rw [hxt]
    exact h.tids_lt x hx
  · simp only []
    exact h.qpids_lt
  · simp only []
    intro fl2 hfl2
    obtain ⟨x, hx, hxt, hxi⟩ := mem_setPhase hfl2
    rw [hxi]
    exact h.tpids_lt x hx
  · exact h.queue_sorted
  · exact h.disp_sorted
  · exact h.disp_lt_queue
  · exact h.disp_lt_next
  · exact h.submits_eq
  · -- starts_le_now
    simp only []
    intro x hx
    have := h.starts_le_now x hx
    omega
  · -- log_eq
    refine ⟨t - 1000, le_refl _, ?_⟩
    simp only []
    exact hl
  · -- window_ok
    simp only []
    intro hrps T
    exact h.window_ok hrps T
  · -- wake_le
    simp only []
    rw [hset]
    intro fl2 hfl2 w3 hw3
    rcases List.mem_append.mp hfl2 with h2 | h2
    · have := h.wake_le fl2 (by rw [hsp]; exact List.mem_append.mpr (Or.inl h2)) w3 hw3
      omega
    · rcases List.mem_cons.mp h2 with h3 | h3
      · rw [h3] at hw3
        simp at hw3
        omega
      · have := h.wake_le fl2
          (by rw [hsp]; exact List.mem_append.mpr (Or.inr (List.mem_cons_of_mem _ h3))) w3 hw3
        omega
  · -- fresh
    simp only []
    exact h.fresh
  · -- pid_inv
    intro pid
    by_cases hpid : pid = fl.item.pid
    · subst hpid
      have hflin : fl ∈ threadsFor s fl.item.pid :=
        List.mem_filter.mpr ⟨hmem, by simp⟩
      rcases h.pid_inv fl.item.pid with ⟨he, hq0, ht0⟩ | ⟨o, he, hq0, ht0⟩
        | ⟨o, tid0, w0, he, hq0, ht0⟩ | ⟨o, tid0, t0, he, hq0, ht0⟩ | ⟨o, t0, he, hq0, ht0⟩
      · rw [ht0] at hflin; cases hflin
      · rw [ht0] at hflin; cases hflin
      · -- stays Dispatched-sleeping with the new wake deadline
        have hfl2 : fl = ⟨tid0, ⟨fl.item.pid, o⟩, FlightPhase.sleeping w0⟩ := by
          rw [ht0] at hflin
          exact List.mem_singleton.mp hflin
        have ho : fl.item.outcome = o := by rw [hfl2]
        have hsplitF : threadsFor s fl.item.pid
            = l1.filter (fun x => decide (x.item.pid = fl.item.pid))
              ++ fl :: l2.filter (fun x => decide (x.item.pid = fl.item.pid)) := by
          unfold threadsFor
          rw [hsp, List.filter_append, List.filter_cons, if_pos (by simp)]
        have hparts := append_cons_eq_singleton (hsplitF.symm.trans ht0)
        refine Or.inr (Or.inr (Or.inl ⟨o, fl.tid, w2, ?_, ?_, ?_⟩))
        · exact he
        · exact hq0
        · unfold threadsFor
          simp only []
          rw [hset, List.filter_append, List.filter_cons, if_pos (by simp)]
          rw [hparts.1, hparts.2.2]
          have h2 : ({ fl with phase := FlightPhase.sleeping w2 } : Flight)
              = ⟨fl.tid, ⟨fl.item.pid, fl.item.outcome⟩, FlightPhase.sleeping w2⟩ := rfl
          rw [h2, ho]
          rfl
      · -- old status Dispatched-running: impossible, fl is sleeping
        have hfl2 : fl = ⟨tid0, ⟨fl.item.pid, o⟩, FlightPhase.running⟩ := by
          rw [ht0] at hflin
          exact List.mem_singleton.mp hflin
        rw [hfl2] at hph
        cases hph
      · rw [ht0] at hflin; cases hflin
    · refine pidInv_congr ?_ ?_ ?_ (h.pid_inv pid)
      · rfl
      · rfl
      · unfold threadsFor
        simp only []
        rw [hset, hsp]
        have hne : ¬ fl.item.pid = pid := fun h3 => hpid h3.symm
        have h4 := @filter_pid_skip l1 l2 { fl with phase := FlightPhase.sleeping w2 } pid hne
        rw [h4, filter_pid_skip hne]

/-! ## Invariant preservation: settlement of a running task -/

theorem sysInv_settleBase {s : Sys} {fl : Flight} {t : Int}
    (h : SysInv s) (hmem : fl ∈ s.threads) (hph : fl.phase = FlightPhase.running)
    (hnow : s.now ≤ t) :
    SysInv (settleBase s fl t) := by
  obtain ⟨l1, l2, hsp, hn1, hn2⟩ := tid_split h.tids_nodup hmem
  have hrem : s.threads.filter (fun x => decide (¬ x.tid = fl.tid)) = l1 ++ l2 := by
    rw [hsp]
    exact filter_tid_split hn1 hn2
  have hflpid : fl.item.pid < s.nextPid := h.tpids_lt fl hmem
  unfold settleBase
  rw [hrem]
  refine ⟨?_, ?_, ?_, ?_, ?_, ?_, ?_, ?_, ?_, ?_, ?_, ?_, ?_, ?_, ?_, ?_, ?_⟩
  · -- active_eq
    simp only [List.length_append]
    have ha := h.active_eq
    rw [hsp] at ha
    simp only [List.length_append, List.length_cons] at ha
    push_cast at ha ⊢
    omega
  · -- active_cap
    rcases h.active_cap with hcap | hcap
    · left
      simp only []
      omega
    · rw [hcap] at hmem
      cases hmem
  · -- tids_nodup
    simp only []
    have hnd := h.tids_nodup
    rw [hsp, List.map_append, List.map_cons] at hnd
    rw [List.map_append]
    exact (List.nodup_cons.mp (List.nodup_middle.mp hnd)).2
  · -- tids_lt
    simp only []
    intro fl2 hfl2
    refine h.tids_lt fl2 ?_
    rw [hsp]
    rcases List.mem_append.mp hfl2 with h2 | h2
    · exact List.mem_append.mpr (Or.inl h2)
    · exact List.mem_append.mpr (Or.inr (List.mem_cons_of_mem _ h2))
  · -- qpids_lt
    simp only []
    exact h.qpids_lt
  · -- tpids_lt
    simp only []
    intro fl2 hfl2
    refine h.tpids_lt fl2 ?_
    rw [hsp]
    rcases List.mem_append.mp hfl2 with h2 | h2
    · exact List.mem_append.mpr (Or.inl h2)
    · exact List.mem_append.mpr (Or.inr (List.mem_cons_of_mem _ h2))
  · exact h.queue_sorted
  · -- disp_sorted
    simp only []
    rw [dispatchedPids_append, dispatchedPids_settleEv, List.append_nil]
    exact h.disp_sorted
  · -- disp_lt_queue
    simp only []
    rw [dispatchedPids_append, dispatchedPids_settleEv, List.append_nil]
    exact h.disp_lt_queue
  · -- disp_lt_next
    simp only []
    rw [dispatchedPids_append, dispatchedPids_settleEv, List.append_nil]
    exact h.disp_lt_next
  · -- submits_eq
    simp only []
    rw [submittedPids_append, submittedPids_settleEv, List.append_nil]
    exact h.submits_eq
  · -- starts_le_now
    simp only []
    rw [startTimes_append, startTimes_settleEv, List.append_nil]
    intro x hx
    have := h.starts_le_now x hx
    omega
  · -- log_eq
    obtain ⟨c, hc, hrts⟩ := h.log_eq
    refine ⟨c, ?_, ?_⟩
    · simp only []
      omega
    · simp only []
      rw [startTimes_append, startTimes_settleEv, List.append_nil]
      exact hrts
  · -- window_ok
    simp only []
    intro hrps T
    rw [startTimes_append, startTimes_settleEv, List.append_nil]
    exact h.window_ok hrps T
  · -- wake_le
    simp only []
    intro fl2 hfl2 w hw
    have hmem2 : fl2 ∈ s.threads := by
      rw [hsp]
      rcases List.mem_append.mp hfl2 with h2 | h2
      · exact List.mem_append.mpr (Or.inl h2)
      · exact List.mem_append.mpr (Or.inr (List.mem_cons_of_mem _ h2))
    have := h.wake_le fl2 hmem2 w hw
    omega
  · -- fresh
    simp only []
    intro pid hpid
    rw [pidEvents_append]
    have h2 : pidEvents [settleEv fl.item.pid fl.item.outcome] pid = [] := by
      unfold pidEvents
      rw [List.filter_eq_nil_iff]
      intro e he2
      rcases List.mem_singleton.mp he2 with rfl
      rw [evPid_settleEv]
      simp
      omega
    rw [h2, List.append_nil]
    exact h.fresh pid hpid
  · -- pid_inv
    intro pid
    by_cases hpid : pid = fl.item.pid
    · subst hpid
      have hflin : fl ∈ threadsFor s fl.item.pid :=
        List.mem_filter.mpr ⟨hmem, by simp⟩
      rcases h.pid_inv fl.item.pid with ⟨he, hq0, ht0⟩ | ⟨o, he, hq0, ht0⟩
        | ⟨o, tid0, w0, he, hq0, ht0⟩ | ⟨o, tid0, t0, he, hq0, ht0⟩ | ⟨o, t0, he, hq0, ht0⟩
      · rw [ht0] at hflin; cases hflin
      · rw [ht0] at hflin; cases hflin
      · -- old status Dispatched-sleeping: impossible, fl is running
        have hfl2 : fl = ⟨tid0, ⟨fl.item.pid, o⟩, FlightPhase.sleeping w0⟩ := by
          rw [ht0] at hflin
          exact List.mem_singleton.mp hflin
        rw [hfl2] at hph
        cases hph
      · -- old status Dispatched-running, new status Settled
        have hfl2 : fl = ⟨tid0, ⟨fl.item.pid, o⟩, FlightPhase.running⟩ := by
          rw [ht0] at hflin
          exact List.mem_singleton.mp hflin
        have ho : fl.item.outcome = o := by rw [hfl2]
        have hsplitF : threadsFor s fl.item.pid
            = l1.filter (fun x => decide (x.item.pid = fl.item.pid))
              ++ fl :: l2.filter (fun x => decide (x.item.pid = fl.item.pid)) := by
          unfold threadsFor
          rw [hsp, List.filter_append, List.filter_cons, if_pos (by simp)]
        have hparts := append_cons_eq_singleton (hsplitF.symm.trans ht0)
        refine Or.inr (Or.inr (Or.inr (Or.inr ⟨o, t0, ?_, ?_, ?_⟩)))
        · unfold pidEvents at he ⊢
          simp only []
          rw [List.filter_append, he]
          have h2 : List.filter (fun e => decide (evPid e = fl.item.pid))
              [settleEv fl.item.pid fl.item.outcome]
              = [settleEv fl.item.pid o] := by
            rw [ho]
            have h3 : decide (evPid (settleEv fl.item.pid o) = fl.item.pid) = true := by
              rw [evPid_settleEv]
              simp
            rw [List.filter_cons, if_pos h3]
            rfl
          rw [h2]
          rfl
        · exact hq0
        · unfold threadsFor
          simp only []
          rw [List.filter_append, hparts.1, hparts.2.2]
          rfl
      · rw [ht0] at hflin; cases hflin
    · -- untouched promise ids
      refine pidInv_congr ?_ ?_ ?_ (h.pid_inv pid)
      · simp only []
        rw [pidEvents_append]
        have h2 : pidEvents [settleEv fl.item.pid fl.item.outcome] pid = [] := by
          unfold pidEvents
          rw [List.filter_eq_nil_iff]
          intro e he2
          rcases List.mem_singleton.mp he2 with rfl
          rw [evPid_settleEv]
          simp
          intro h3
          exact hpid h3.symm
        rw [h2, List.append_nil]
      · rfl
      · unfold threadsFor
        simp only []
        rw [hsp]
        have hne : ¬ fl.item.pid = pid := fun h3 => hpid h3.symm
        rw [filter_pid_skip hne]

/-! ## The full invariant along every run -/

theorem goodSys_init (maxC rps t0 : Int) : GoodSys (initSys maxC rps t0) := by
  constructor
  · refine ⟨?_, ?_, ?_, ?_, ?_, ?_, ?_, ?_, ?_, ?_, ?_, ?_, ?_, ?_, ?_, ?_, ?_⟩
    · rfl
    · right
      rfl
    · exact List.nodup_nil
    · intro fl hfl
      cases hfl
    · intro it hit
      cases hit
    · intro fl hfl
      cases hfl
    · exact List.sorted_nil
    · exact List.sorted_nil
    · intro p hp
      cases hp
    · intro p hp
      cases hp
    · rfl
    · intro x hx
      cases hx
    · exact ⟨t0 - 1000, le_refl _, rfl⟩
    · intro hrps T
      have h2 : windowCount (startTimes (initSys maxC rps t0).events) T = 0 := rfl
      rw [h2]
      omega
    · intro fl hfl
      cases hfl
    · intro pid _
      rfl
    · intro pid
      exact Or.inl ⟨rfl, rfl, rfl⟩
  · intro _ h2
    exact absurd rfl h2

theorem goodSys_stepSys {s s' : Sys} {d : StepD}
    (hg : GoodSys s) (hstep : stepSys s d = some s') :
    GoodSys s'
    ∧ s'.rq.maxConcurrent = s.rq.maxConcurrent
    ∧ s'.rq.requestsPerSecond = s.rq.requestsPerSecond
    ∧ s.now ≤ s'.now
    ∧ (∃ tl, s'.events = s.events ++ tl)
    ∧ s.nextPid ≤ s'.nextPid := by
  obtain ⟨h, hql⟩ := hg
  cases d with
  | submit o t =>
    simp only [stepSys] at hstep
    by_cases ht : t < s.now
    · rw [if_pos ht] at hstep
      cases hstep
    · rw [if_neg ht] at hstep
      injection hstep with hs'
      subst hs'
      have h1 := sysInv_enqueue (o := o) (t := t) h (not_lt.mp ht)
      obtain ⟨p1, p2, p3, p4, p5⟩ := processSync_params
        { s with
          rq := { s.rq with queue := s.rq.queue ++ [⟨s.nextPid, o⟩] }
          nextPid := s.nextPid + 1
          now := t
          events := s.events ++ [REv.submitE s.nextPid o] }
      refine ⟨⟨sysInv_processSync h1, queueLive_processSync h1.active_eq⟩,
        p1, p2, ?_, ?_, ?_⟩
      · rw [p3]
        exact not_lt.mp ht
      · obtain ⟨tl, htl⟩ := p5
        refine ⟨[REv.submitE s.nextPid o] ++ tl, ?_⟩
        rw [htl, ← List.append_assoc]
      · rw [p4]
        exact Nat.le_succ _
  | wake tid t =>
    simp only [stepSys] at hstep
    by_cases ht : t < s.now
    · rw [if_pos ht] at hstep
      cases hstep
    · rw [if_neg ht] at hstep
      cases hf : s.threads.find? (fun x => decide (x.tid = tid)) with
      | none =>
        rw [hf] at hstep
        cases hstep
      | some fl =>
        rw [hf] at hstep
        simp only [] at hstep
        have hmem := List.mem_of_find?_eq_some hf
        have htid : fl.tid = tid := by
          have h2 := List.find?_some hf
          simpa using h2
        cases hph : fl.phase with
        | running =>
          rw [hph] at hstep
          simp only [] at hstep
          cases hstep
        | sleeping w =>
          rw [hph] at hstep
          simp only [] at hstep
          by_cases htw : t < w
          · rw [if_pos htw] at hstep
            cases hstep
          · rw [if_neg htw] at hstep
            cases hr : waitForRateLimitStep s.rq.requestsPerSecond s.rq.requestTimestamps t with
            | mk log r =>
              rw [hr] at hstep
              cases r with
              | none =>
                simp only [] at hstep
                injection hstep with hs'
                subst hs'
                rw [← htid]
                refine ⟨⟨sysInv_wake_grant h hmem hph (not_lt.mp ht) hr, ?_⟩,
                  rfl, rfl, not_lt.mp ht, ⟨[REv.startE fl.item.pid t], rfl⟩, le_refl _⟩
                intro hmax hqne hcontra
                simp only [] at hmax hqne hcontra
                have hlen := setPhase_length s.threads fl.tid FlightPhase.running
                rw [hcontra] at hlen
                have h3 : s.threads = [] := List.length_eq_zero.mp hlen.symm
                exact hql hmax hqne h3
              | some w2 =>
                simp only [] at hstep
                injection hstep with hs'
                subst hs'
                rw [← htid]
                refine ⟨⟨sysInv_wake_sleep h hmem hph (not_lt.mp ht) hr, ?_⟩,
                  rfl, rfl, not_lt.mp ht, ⟨[], (List.append_nil _).symm⟩, le_refl _⟩
                intro hmax hqne hcontra
                simp only [] at hmax hqne hcontra
                have hlen := setPhase_length s.threads fl.tid (FlightPhase.sleeping w2)
                rw [hcontra] at hlen
                have h3 : s.threads = [] := List.length_eq_zero.mp hlen.symm
                exact hql hmax hqne h3
  | settle tid t =>
    simp only [stepSys] at hstep
    by_cases ht : t < s.now
    · rw [if_pos ht] at hstep
      cases hstep
    · rw [if_neg ht] at hstep
      cases hf : s.threads.find? (fun x => decide (x.tid = tid)) with
      | none =>
        rw [hf] at hstep
        cases hstep
      | some fl =>
        rw [hf] at hstep
        simp only [] at hstep
        have hmem := List.mem_of_find?_eq_some hf
        cases hph : fl.phase with
        | sleeping w =>
          rw [hph] at hstep
          simp only [] at hstep
          cases hstep
        | running =>
          rw [hph] at hstep
          simp only [] at hstep
          injection hstep with hs'
          subst hs'
          have h1 := sysInv_settleBase (t := t) h hmem hph (not_lt.mp ht)
          obtain ⟨p1, p2, p3, p4, p5⟩ := processSync_params (settleBase s fl t)
          refine ⟨⟨sysInv_processSync h1, queueLive_processSync h1.active_eq⟩,
            p1, p2, ?_, ?_, ?_⟩
          · rw [p3]
            exact not_lt.mp ht
          · obtain ⟨tl, htl⟩ := p5
            refine ⟨[settleEv fl.item.pid fl.item.outcome] ++ tl, ?_⟩
            rw [htl, ← List.append_assoc]
            rfl
          · rw [p4]
            exact le_refl _

theorem goodSys_runSys {ds : List StepD} : ∀ {s s' : Sys},
    GoodSys s → runSys s ds = some s' →
    GoodSys s'
    ∧ s'.rq.maxConcurrent = s.rq.maxConcurrent
    ∧ s'.rq.requestsPerSecond = s.rq.requestsPerSecond
    ∧ s.now ≤ s'.now
    ∧ (∃ tl, s'.events = s.events ++ tl)
    ∧ s.nextPid ≤ s'.nextPid := by
  induction ds with
  | nil =>
    intro s s' hg hrun
    unfold runSys at hrun
    injection hrun with h2
    subst h2
    exact ⟨hg, rfl, rfl, le_refl _, ⟨[], (List.append_nil _).symm⟩, le_refl _⟩
  | cons d ds ih =>
    intro s s' hg hrun
    unfold runSys at hrun
    cases hstep : stepSys s d with
    | none =>
      rw [hstep] at hrun
      cases hrun
    | some s1 =>
      rw [hstep] at hrun
      obtain ⟨hg1, hm, hr, hn, he, hp⟩ := goodSys_stepSys hg hstep
      obtain ⟨hg2, hm2, hr2, hn2, he2, hp2⟩ := ih hg1 hrun
      refine ⟨hg2, hm2.trans hm, hr2.trans hr, le_trans hn hn2, ?_, le_trans hp hp2⟩
      obtain ⟨tl1, h1⟩ := he
      obtain ⟨tl2, h2⟩ := he2
      exact ⟨tl1 ++ tl2, by rw [h2, h1, List.append_assoc]⟩

theorem sysReachable_good {maxC rps t0 : Int} {s : Sys} (h : SysReachable maxC rps t0 s) :
    GoodSys s ∧ s.rq.maxConcurrent = maxC ∧ s.rq.requestsPerSecond = rps := by
  obtain ⟨ds, hds⟩ := h
  obtain ⟨hg, hm, hr, -, -, -⟩ := goodSys_runSys (goodSys_init maxC rps t0) hds
  exact ⟨hg, hm, hr⟩

/-! ## Executable characterizations of the settle and wake steps -/

/-- For every running in-flight invocation, the settle step is always
enabled, whatever the task's outcome: resolve or reject fires, then the
finally block decrements the counter and re-triggers the dispatch loop. -/
theorem settle_step_eq {s : Sys} {fl : Flight} {t : Int}
    (hnd : (s.threads.map Flight.tid).Nodup) (hmem : fl ∈ s.threads)
    (hph : fl.phase = FlightPhase.running) (hnow : s.now ≤ t) :
    stepSys s (StepD.settle fl.tid t) = some (processSync (settleBase s fl t)) := by
  obtain ⟨l1, l2, hsp, hn1, hn2⟩ := tid_split hnd hmem
  have hfind : s.threads.find? (fun x => decide (x.tid = fl.tid)) = some fl := by
    rw [hsp]
    exact find_tid_split hn1
  simp only [stepSys]
  rw [if_neg (not_lt.mpr hnow), hfind]
  simp only []
  rw [hph]

/-- A sleeping invocation whose timer deadline has passed re-runs the whole
clearance check; when the check grants, the task starts. -/
theorem wake_step_grant_eq {s : Sys} {fl : Flight} {w t : Int} {log : List Int}
    (hnd : (s.threads.map Flight.tid).Nodup) (hmem : fl ∈ s.threads)
    (hph : fl.phase = FlightPhase.sleeping w) (hw : w ≤ t) (hnow : s.now ≤ t)
    (hgr : waitForRateLimitStep s.rq.requestsPerSecond s.rq.requestTimestamps t
      = (log, none)) :
    stepSys s (StepD.wake fl.tid t)
      = some { s with
          rq := { s.rq with requestTimestamps := log }
          threads := setPhase s.threads fl.tid FlightPhase.running
          now := t
          events := s.events ++ [REv.startE fl.item.pid t] } := by
  obtain ⟨l1, l2, hsp, hn1, hn2⟩ := tid_split hnd hmem
  have hfind : s.threads.find? (fun x => decide (x.tid = fl.tid)) = some fl := by
    rw [hsp]
    exact find_tid_split hn1
  simp only [stepSys]
  rw [if_neg (not_lt.mpr hnow), hfind]
  simp only []
  rw [hph]
  simp only []
  rw [if_neg (not_lt.mpr hw), hgr]

/-! ## The drain measure decreases -/

theorem flightWeight_pos (fl : Flight) : 1 ≤ flightWeight fl := by
  unfold flightWeight
  cases fl.phase <;> simp

theorem measure_processSync_le (s : Sys) : measureSys (processSync s) ≤ measureSys s := by
  by_cases hg : s.rq.maxConcurrent ≤ s.rq.activeRequests
  · rw [processSync_block (Or.inl hg)]
  · cases hq : s.rq.queue with
    | nil => rw [processSync_block (Or.inr hq)]
    | cons it rest =>
      rw [processSync_dispatch hq (by omega)]
      cases hr : waitForRateLimitStep s.rq.requestsPerSecond s.rq.requestTimestamps s.now with
      | mk log r =>
        cases r with
        | none =>
          rw [dispatchResult_grant_eq hr]
          unfold measureSys
          simp only [List.map_append, List.sum_append, List.map_cons, List.sum_cons,
            List.map_nil, List.sum_nil]
          rw [hq]
          simp only [List.length_cons]
          have h2 : flightWeight ⟨s.nextTid, it, FlightPhase.running⟩ = 1 := rfl
          rw [h2]
          omega
        | some w =>
          rw [dispatchResult_sleep_eq hr]
          unfold measureSys
          simp only [List.map_append, List.sum_append, List.map_cons, List.sum_cons,
            List.map_nil, List.sum_nil]
          rw [hq]
          simp only [List.length_cons]
          have h2 : flightWeight ⟨s.nextTid, it, FlightPhase.sleeping w⟩ = 2 := rfl
          rw [h2]
          omega

theorem measure_settleBase {s : Sys} {fl : Flight} {t : Int}
    (hnd : (s.threads.map Flight.tid).Nodup) (hmem : fl ∈ s.threads)
    (hph : fl.phase = FlightPhase.running) :
    measureSys (settleBase s fl t) + 1 = measureSys s := by
  obtain ⟨l1, l2, hsp, hn1, hn2⟩ := tid_split hnd hmem
  have hrem : s.threads.filter (fun x => decide (¬ x.tid = fl.tid)) = l1 ++ l2 := by
    rw [hsp]
    exact filter_tid_split hn1 hn2
  unfold settleBase measureSys
  simp only []
  rw [hrem, hsp]
  simp only [List.map_append, List.sum_append, List.map_cons, List.sum_cons]
  have h2 : flightWeight fl = 1 := by
    unfold flightWeight
    rw [hph]
  rw [h2]
  omega

theorem measure_wake_grant {s : Sys} {fl : Flight} {w : Int}
    (hnd : (s.threads.map Flight.tid).Nodup) (hmem : fl ∈ s.threads)
    (hph : fl.phase = FlightPhase.sleeping w) :
    ((setPhase s.threads fl.tid FlightPhase.running).map flightWeight).sum + 1
      = (s.threads.map flightWeight).sum := by
  obtain ⟨l1, l2, hsp, hn1, hn2⟩ := tid_split hnd hmem
  have hset : setPhase s.threads fl.tid FlightPhase.running
      = l1 ++ { fl with phase := FlightPhase.running } :: l2 := by
    rw [hsp]
    exact setPhase_split _ hn1 hn2
  rw [hset, hsp]
  simp only [List.map_append, List.sum_append, List.map_cons, List.sum_cons]
  have h2 : flightWeight { fl with phase := FlightPhase.running } = 1 := rfl
  have h3 : flightWeight fl = 2 := by
    unfold flightWeight
    rw [hph]
  rw [h2, h3]
  omega

/-! ## Drainage: every reachable state can run on until all work settles -/

theorem drain_aux : ∀ n : Nat, ∀ s : Sys, GoodSys s → 1 ≤ s.rq.requestsPerSecond →
    1 ≤ s.rq.maxConcurrent → measureSys s ≤ n →
    ∃ ds s2, runSys s ds = some s2 ∧ s2.rq.queue = [] ∧ s2.threads = [] := by
  intro n
  induction n with
  | zero =>
    intro s hg hrps hmax hm
    unfold measureSys at hm
    cases hth : s.threads with
    | nil =>
      cases hq : s.rq.queue with
      | nil => exact ⟨[], s, rfl, hq, hth⟩
      | cons it rest =>
        rw [hq] at hm
        simp at hm
    | cons fl rest =>
      rw [hth] at hm
      simp only [List.map_cons, List.sum_cons] at hm
      have := flightWeight_pos fl
      omega
  | succ n ih =>
    intro s hg hrps hmax hm
    cases hth : s.threads with
    | nil =>
      cases hq : s.rq.queue with
      | nil => exact ⟨[], s, rfl, hq, hth⟩
      | cons it rest =>
        exact absurd hth (hg.2 hmax (by rw [hq]; simp))
    | cons fl rest =>
      have hmem : fl ∈ s.threads := by rw [hth]; exact List.mem_cons_self _ _
      have hnd := hg.1.tids_nodup
      cases hph : fl.phase with
      | running =>
        have hstep := settle_step_eq hnd hmem hph (le_refl s.now)
        obtain ⟨hg2, hm2, hr2, -, -, -⟩ := goodSys_stepSys hg hstep
        have hms : measureSys (processSync (settleBase s fl s.now)) ≤ n := by
          have h1 := measure_processSync_le (settleBase s fl s.now)
          have h2 := measure_settleBase (t := s.now) hnd hmem hph
          omega
        obtain ⟨ds, s2, hrun, hq2, ht2⟩ := ih (processSync (settleBase s fl s.now)) hg2
          (by rw [hr2]; exact hrps) (by rw [hm2]; exact hmax) hms
        refine ⟨StepD.settle fl.tid s.now :: ds, s2, ?_, hq2, ht2⟩
        simp only [runSys]
        rw [hstep]
        exact hrun
      | sleeping w =>
        have hw : w ≤ s.now + 1001 := by
          have := hg.1.wake_le fl hmem w hph
          omega
        have hpruned : s.rq.requestTimestamps.filter
            (fun ts => decide (s.now + 1001 - 1000 < ts)) = [] := by
          rw [List.filter_eq_nil_iff]
          intro ts hts
          obtain ⟨c, hc, hrts⟩ := hg.1.log_eq
          rw [hrts] at hts
          have h2 := (List.mem_filter.mp hts).1
          have h3 := hg.1.starts_le_now ts h2
          simp
          omega
        have hgr : waitForRateLimitStep s.rq.requestsPerSecond s.rq.requestTimestamps
            (s.now + 1001) = ([s.now + 1001], none) := by
          unfold waitForRateLimitStep
          rw [hpruned, rateCheck_nil]
        have hstep := wake_step_grant_eq hnd hmem hph hw (by omega) hgr
        obtain ⟨hg2, hm2, hr2, -, -, -⟩ := goodSys_stepSys hg hstep
        have hms : measureSys { s with
            rq := { s.rq with requestTimestamps := [s.now + 1001] }
            threads := setPhase s.threads fl.tid FlightPhase.running
            now := s.now + 1001
            events := s.events ++ [REv.startE fl.item.pid (s.now + 1001)] } ≤ n := by
          unfold measureSys
          simp only []
          have h2 := measure_wake_grant hnd hmem hph
          unfold measureSys at hm
          omega
        obtain ⟨ds, s2, hrun, hq2, ht2⟩ := ih _ hg2
          (by rw [hr2]; exact hrps) (by rw [hm2]; exact hmax) hms
        refine ⟨StepD.wake fl.tid (s.now + 1001) :: ds, s2, ?_, hq2, ht2⟩
        simp only [runSys]
        rw [hstep]
        exact hrun

/-- Every reachable state with positive limits can be continued to a state
where the queue is empty and no task is in flight. -/
theorem drain {s : Sys} (hg : GoodSys s) (hrps : 1 ≤ s.rq.requestsPerSecond)
    (hmax : 1 ≤ s.rq.maxConcurrent) :
    ∃ ds s2, runSys s ds = some s2 ∧ s2.rq.queue = [] ∧ s2.threads = [] :=
  drain_aux (measureSys s) s hg hrps hmax (le_refl _)

/-! ## Counting corollaries of the per-promise lifecycle -/

theorem settleCount_eq (evs : List REv) (pid : Nat) :
    settleCount evs pid = ((pidEvents evs pid).filter isSettleEv).length := by
  unfold settleCount pidEvents
  rw [List.filter_filter]

theorem dispatchCount_eq (evs : List REv) (pid : Nat) :
    dispatchCount evs pid = ((pidEvents evs pid).filter isDispatchEv).length := by
  unfold dispatchCount pidEvents
  rw [List.filter_filter]

theorem settleCount_append (l1 l2 : List REv) (pid : Nat) :
    settleCount (l1 ++ l2) pid = settleCount l1 pid + settleCount l2 pid := by
  unfold settleCount
  rw [List.filter_append, List.length_append]

theorem evShape_of_sysInv {s : Sys} (h : SysInv s) (pid : Nat) : EvShape s.events pid := by
  rcases h.pid_inv pid with ⟨he, -, -⟩ | ⟨o, he, -, -⟩ | ⟨o, tid, w, he, -, -⟩
    | ⟨o, tid, t, he, -, -⟩ | ⟨o, t, he, -, -⟩
  · exact Or.inl he
  · exact Or.inr (Or.inl ⟨o, he⟩)
  · exact Or.inr (Or.inr (Or.inl ⟨o, he⟩))
  · exact Or.inr (Or.inr (Or.inr (Or.inl ⟨o, t, he⟩)))
  · exact Or.inr (Or.inr (Or.inr (Or.inr ⟨o, t, he⟩)))

theorem shape_settleCount_le_one {evs : List REv} {pid : Nat} (h : EvShape evs pid) :
    settleCount evs pid ≤ 1 := by
  rw [settleCount_eq]
  rcases h with he | ⟨o, he⟩ | ⟨o, he⟩ | ⟨o, t, he⟩ | ⟨o, t, he⟩ <;> rw [he]
  · simp
  · simp [isSettleEv]
  · simp [isSettleEv]
  · simp [isSettleEv]
  · cases o <;> simp [isSettleEv, settleEv]

theorem shape_dispatchCount_le_one {evs : List REv} {pid : Nat} (h : EvShape evs pid) :
    dispatchCount evs pid ≤ 1 := by
  rw [dispatchCount_eq]
  rcases h with he | ⟨o, he⟩ | ⟨o, he⟩ | ⟨o, t, he⟩ | ⟨o, t, he⟩ <;> rw [he]
  · simp
  · simp [isDispatchEv]
  · simp [isDispatchEv]
  · simp [isDispatchEv]
  · cases o <;> simp [isDispatchEv, settleEv]

/-- A task still queued has never been dispatched. -/
theorem queued_dispatchCount_zero {s : Sys} (h : SysInv s) {it : Item}
    (hit : it ∈ s.rq.queue) : dispatchCount s.events it.pid = 0 := by
  have hinq : it ∈ queueFor s it.pid := List.mem_filter.mpr ⟨hit, by simp⟩
  rcases h.pid_inv it.pid with ⟨he, hq0, -⟩ | ⟨o, he, hq0, -⟩ | ⟨o, tid, w, he, hq0, -⟩
    | ⟨o, tid, t, he, hq0, -⟩ | ⟨o, t, he, hq0, -⟩
  · rw [hq0] at hinq; cases hinq
  · rw [dispatchCount_eq, he]
    simp [isDispatchEv]
  · rw [hq0] at hinq; cases hinq
  · rw [hq0] at hinq; cases hinq
  · rw [hq0] at hinq; cases hinq

/-- In a drained state every submitted promise has settled exactly once. -/
theorem settled_of_drained {s : Sys} (h : SysInv s) (hq : s.rq.queue = [])
    (ht : s.threads = []) {pid : Nat} (hsub : pid ∈ submittedPids s.events) :
    settleCount s.events pid = 1 := by
  obtain ⟨e, he, hfe⟩ := List.mem_filterMap.mp hsub
  have hex : ∃ o, e = REv.submitE pid o := by
    cases e <;> simp_all
  obtain ⟨o, rfl⟩ := hex
  have hmemp : REv.submitE pid o ∈ pidEvents s.events pid :=
    List.mem_filter.mpr ⟨he, by simp [evPid]⟩
  have hqf : queueFor s pid = [] := by
    unfold queueFor
    rw [hq]
    rfl
  have htf : threadsFor s pid = [] := by
    unfold threadsFor
    rw [ht]
    rfl
  rcases h.pid_inv pid with ⟨he2, -, -⟩ | ⟨o2, he2, hq2, -⟩ | ⟨o2, tid, w, he2, -, ht2⟩
    | ⟨o2, tid, t, he2, -, ht2⟩ | ⟨o2, t, he2, -, -⟩
  · rw [he2] at hmemp; cases hmemp
  · rw [hqf] at hq2; simp at hq2
  · rw [htf] at ht2; simp at ht2
  · rw [htf] at ht2; simp at ht2
  · rw [settleCount_eq, he2]
    cases o2 <;> simp [isSettleEv, settleEv]

/-- The settle payload is verbatim the submitted task's outcome. -/
theorem verbatim_of_shape {evs : List REv} {pid : Nat} (h : EvShape evs pid) :
    (∀ v : Int, REv.resolveE pid v ∈ evs → REv.submitE pid (Except.ok v) ∈ evs)
    ∧ (∀ e : Int, REv.rejectE pid e ∈ evs → REv.submitE pid (Except.error e) ∈ evs) := by
  constructor
  · intro v hv
    have hv2 : REv.resolveE pid v ∈ pidEvents evs pid :=
      List.mem_filter.mpr ⟨hv, by simp [evPid]⟩
    rcases h with he | ⟨o, he⟩ | ⟨o, he⟩ | ⟨o, t, he⟩ | ⟨o, t, he⟩ <;> rw [he] at hv2
    · cases hv2
    · simp at hv2
    · simp at hv2
    · simp at hv2
    · have hset : settleEv pid o = REv.resolveE pid v := by
        simp at hv2
        exact hv2.symm
      have ho : o = Except.ok v := by
        cases o with
        | ok v2 =>
          unfold settleEv at hset
          injection hset with h2 h3
          rw [h3]
        | error e2 =>
          unfold settleEv at hset
          cases hset
      have hin : REv.submitE pid o ∈ pidEvents evs pid := by
        rw [he]
        exact List.mem_cons_self _ _
      rw [ho] at hin
      exact List.mem_of_mem_filter hin
  · intro e2 hv
    have hv2 : REv.rejectE pid e2 ∈ pidEvents evs pid :=
      List.mem_filter.mpr ⟨hv, by simp [evPid]⟩
    rcases h with he | ⟨o, he⟩ | ⟨o, he⟩ | ⟨o, t, he⟩ | ⟨o, t, he⟩ <;> rw [he] at hv2
    · cases hv2
    · simp at hv2
    · simp at hv2
    · simp at hv2
    · have hset : settleEv pid o = REv.rejectE pid e2 := by
        simp at hv2
        exact hv2.symm
      have ho : o = Except.error e2 := by
        cases o with
        | ok v2 =>
          unfold settleEv at hset
          cases hset
        | error e3 =>
          unfold settleEv at hset
          injection hset with h2 h3
          rw [h3]
      have hin : REv.submitE pid o ∈ pidEvents evs pid := by
        rw [he]
        exact List.mem_cons_self _ _
      rw [ho] at hin
      exact List.mem_of_mem_filter hin

/-- process() never settles any promise. -/
theorem settleCount_processSync (s : Sys) (pid : Nat) :
    settleCount (processSync s).events pid = settleCount s.events pid := by
  by_cases hg : s.rq.maxConcurrent ≤ s.rq.activeRequests
  · rw [processSync_block (Or.inl hg)]
  · cases hq : s.rq.queue with
    | nil => rw [processSync_block (Or.inr hq)]
    | cons it rest =>
      rw [processSync_dispatch hq (by omega)]
      cases hr : waitForRateLimitStep s.rq.requestsPerSecond s.rq.requestTimestamps s.now with
      | mk log r =>
        cases r with
        | none =>
          rw [dispatchResult_grant_eq hr]
          show settleCount (s.events ++ [REv.dispatchE it.pid, REv.startE it.pid s.now]) pid
            = settleCount s.events pid
          rw [settleCount_append]
          have h2 : settleCount [REv.dispatchE it.pid, REv.startE it.pid s.now] pid = 0 := rfl
          rw [h2]
          omega
        | some w =>
          rw [dispatchResult_sleep_eq hr]
          show settleCount (s.events ++ [REv.dispatchE it.pid]) pid = settleCount s.events pid
          rw [settleCount_append]
          have h2 : settleCount [REv.dispatchE it.pid] pid = 0 := rfl
          rw [h2]
          omega

/-- add() always succeeds: the entry is enqueued and process() runs. -/
theorem submit_step_eq {s : Sys} (o : Outcome) {t : Int} (hnow : s.now ≤ t) :
    stepSys s (StepD.submit o t) = some (processSync { s with
      rq := { s.rq with queue := s.rq.queue ++ [⟨s.nextPid, o⟩] }
      nextPid := s.nextPid + 1
      now := t
      events := s.events ++ [REv.submitE s.nextPid o] }) := by
  simp only [stepSys]
  rw [if_neg (not_lt.mpr hnow)]

/-! ## The remaining claims -/

/-- C1: for every run of a dispatcher constructed with a positive
requestsPerSecond, and for every trailing one-second window (the interval
from T - 1000 exclusive to T inclusive, for any instant T), the number of
task starts whose instants fall in the window never exceeds
requestsPerSecond. -/
theorem c1_rate_window (maxC rps t0 T : Int) (s : Sys)
    (hreach : SysReachable maxC rps t0 s) (hrps : 1 ≤ rps) :
    (windowCount (startTimes s.events) T : Int) ≤ rps := by
  obtain ⟨⟨h, -⟩, -, hr⟩ := sysReachable_good hreach
  have h2 := h.window_ok (by rw [hr]; exact hrps) T
  rw [hr] at h2
  exact h2

theorem c1_rate_window_witness :
    SysReachable 2 1 0 sysA ∧ (1 : Int) ≤ 1
    ∧ (windowCount (startTimes sysA.events) 500 : Int) ≤ 1 :=
  ⟨⟨[StepD.submit (Except.ok 5) 0], rfl⟩, by decide,
    c1_rate_window 2 1 0 500 sysA ⟨[StepD.submit (Except.ok 5) 0], rfl⟩ (by decide)⟩

/-- C2: at every reachable state of a dispatcher whose configured
maxConcurrent is non-negative (the spec's interface requires a positive
integer), the counter satisfies 0 <= activeRequests <= maxConcurrent, and
the number of in-flight tasks - which always equals the counter - never
exceeds maxConcurrent. -/
theorem c2_gate_bounds (maxC rps t0 : Int) (s : Sys)
    (hreach : SysReachable maxC rps t0 s) (hmax : 0 ≤ maxC) :
    0 ≤ s.rq.activeRequests ∧ s.rq.activeRequests ≤ maxC
      ∧ (s.threads.length : Int) ≤ maxC := by
  obtain ⟨⟨h, -⟩, hm, -⟩ := sysReachable_good hreach
  have ha := h.active_eq
  have h0 : (0 : Int) ≤ (s.threads.length : Int) := Int.natCast_nonneg _
  rcases h.active_cap with hcap | hcap
  · rw [hm] at hcap
    exact ⟨by omega, hcap, by omega⟩
  · rw [hcap] at ha
    simp at ha
    refine ⟨by omega, by omega, ?_⟩
    rw [hcap]
    simpa using hmax

theorem c2_gate_bounds_witness :
    SysReachable 2 1 0 sysA ∧ (0 : Int) ≤ 2
    ∧ (0 ≤ sysA.rq.activeRequests ∧ sysA.rq.activeRequests ≤ 2
        ∧ (sysA.threads.length : Int) ≤ 2) :=
  ⟨⟨[StepD.submit (Except.ok 5) 0], rfl⟩, by decide,
    c2_gate_bounds 2 1 0 sysA ⟨[StepD.submit (Except.ok 5) 0], rfl⟩ (by decide)⟩

/-- C5 amended: dequeue order follows submission order - promise ids are
assigned in submission order, and the dispatch trace is strictly increasing
in them, with everything still queued coming after everything dispatched.
Start (invocation) order, however, is NOT guaranteed to follow submission
order (see the counterexample): a task sleeping in the rate limiter can be
overtaken by a later-submitted task whose clearance check runs first. -/
theorem c5_dispatch_follows_submission (maxC rps t0 : Int) (s : Sys)
    (hreach : SysReachable maxC rps t0 s) :
    submittedPids s.events = List.range s.nextPid
    ∧ (dispatchedPids s.events).Sorted (· < ·)
    ∧ ∀ p ∈ dispatchedPids s.events, ∀ it ∈ s.rq.queue, p < it.pid := by
  obtain ⟨⟨h, -⟩, -, -⟩ := sysReachable_good hreach
  exact ⟨h.submits_eq, h.disp_sorted, h.disp_lt_queue⟩

theorem c5_dispatch_follows_submission_witness :
    SysReachable 2 1 0 sysA
    ∧ (submittedPids sysA.events = List.range sysA.nextPid
        ∧ (dispatchedPids sysA.events).Sorted (· < ·)
        ∧ ∀ p ∈ dispatchedPids sysA.events, ∀ it ∈ sysA.rq.queue, p < it.pid) :=
  ⟨⟨[StepD.submit (Except.ok 5) 0], rfl⟩,
    c5_dispatch_follows_submission 2 1 0 sysA ⟨[StepD.submit (Except.ok 5) 0], rfl⟩⟩

/-- C6: every promise settles at most once and is dispatched at most once
(no re-entry into Queued, no double terminal transition); queued entries
have never been dispatched; and with positive limits every reachable state
has a continuation of the run in which every submitted promise has settled
exactly once. -/
theorem c6_settle_exactly_once (maxC rps t0 : Int) (s : Sys)
    (hreach : SysReachable maxC rps t0 s) :
    (∀ pid, settleCount s.events pid ≤ 1)
    ∧ (∀ pid, dispatchCount s.events pid ≤ 1)
    ∧ (∀ it ∈ s.rq.queue, dispatchCount s.events it.pid = 0)
    ∧ (1 ≤ rps → 1 ≤ maxC →
        ∃ ds s2, runSys s ds = some s2
          ∧ (∃ tl, s2.events = s.events ++ tl)
          ∧ ∀ pid ∈ submittedPids s.events, settleCount s2.events pid = 1) := by
  obtain ⟨hg, hm, hr⟩ := sysReachable_good hreach
  refine ⟨?_, ?_, ?_, ?_⟩
  · intro pid
    exact shape_settleCount_le_one (evShape_of_sysInv hg.1 pid)
  · intro pid
    exact shape_dispatchCount_le_one (evShape_of_sysInv hg.1 pid)
  · intro it hit
    exact queued_dispatchCount_zero hg.1 hit
  · intro hrps hmax
    obtain ⟨ds, s2, hrun, hq2, ht2⟩ := drain hg (by rw [hr]; exact hrps)
      (by rw [hm]; exact hmax)
    obtain ⟨hg2, -, -, -, hev, -⟩ := goodSys_runSys hg hrun
    refine ⟨ds, s2, hrun, hev, ?_⟩
    intro pid hpid
    obtain ⟨tl, htl⟩ := hev
    have hpid2 : pid ∈ submittedPids s2.events := by
      rw [htl, submittedPids_append]
      exact List.mem_append.mpr (Or.inl hpid)
    exact settled_of_drained hg2.1 hq2 ht2 hpid2

theorem c6_settle_exactly_once_witness :
    SysReachable 2 1 0 sysA
    ∧ settleCount sysA.events 0 ≤ 1 :=
  ⟨⟨[StepD.submit (Except.ok 5) 0], rfl⟩,
    (c6_settle_exactly_once 2 1 0 sysA ⟨[StepD.submit (Except.ok 5) 0], rfl⟩).1 0⟩

/-- C7: per promise the trace shape is submit, dispatch (the counter
increment), start (the invocation), settle - so the increment strictly
precedes the invocation and the settlement strictly follows it; for every
running task the settle step - resolve or reject followed by the
guaranteed finally block - is always enabled, decrements the counter by
exactly one, releases exactly one in-flight slot, and re-runs the dispatch
loop; the released state does not depend on whether the task succeeded or
raised (only the delivered event payload does); and with positive limits
the run can always continue until queue and in-flight set are empty, so a
failing task neither stalls the loop nor blocks other tasks. -/
theorem c7_guaranteed_cleanup (maxC rps t0 : Int) (s : Sys)
    (hreach : SysReachable maxC rps t0 s) :
    (∀ pid, EvShape s.events pid)
    ∧ (∀ fl ∈ s.threads, fl.phase = FlightPhase.running → ∀ t, s.now ≤ t →
        stepSys s (StepD.settle fl.tid t) = some (processSync (settleBase s fl t))
        ∧ (settleBase s fl t).rq.activeRequests = s.rq.activeRequests - 1
        ∧ (settleBase s fl t).threads.length + 1 = s.threads.length)
    ∧ (∀ (s3 : Sys) (fl : Flight) (t : Int) (o2 : Outcome),
        (settleBase s3 { fl with item := { fl.item with outcome := o2 } } t).rq
          = (settleBase s3 fl t).rq
        ∧ (settleBase s3 { fl with item := { fl.item with outcome := o2 } } t).threads
          = (settleBase s3 fl t).threads)
    ∧ (1 ≤ rps → 1 ≤ maxC →
        ∃ ds s2, runSys s ds = some s2 ∧ s2.rq.queue = [] ∧ s2.threads = []) := by
  obtain ⟨hg, hm, hr⟩ := sysReachable_good hreach
  refine ⟨?_, ?_, ?_, ?_⟩
  · intro pid
    exact evShape_of_sysInv hg.1 pid
  · intro fl hfl hph t ht
    refine ⟨settle_step_eq hg.1.tids_nodup hfl hph ht, rfl, ?_⟩
    obtain ⟨l1, l2, hsp, hn1, hn2⟩ := tid_split hg.1.tids_nodup hfl
    have hrem : s.threads.filter (fun x => decide (¬ x.tid = fl.tid)) = l1 ++ l2 := by
      rw [hsp]
      exact filter_tid_split hn1 hn2
    show (s.threads.filter (fun x => decide (¬ x.tid = fl.tid))).length + 1
      = s.threads.length
    rw [hrem, hsp]
    simp only [List.length_append, List.length_cons]
    omega
  · intro s3 fl t o2
    exact ⟨rfl, rfl⟩
  · intro hrps hmax
    exact drain hg (by rw [hr]; exact hrps) (by rw [hm]; exact hmax)

theorem c7_guaranteed_cleanup_witness :
    SysReachable 2 1 0 sysA
    ∧ EvShape sysA.events 0 :=
  ⟨⟨[StepD.submit (Except.ok 5) 0], rfl⟩,
    (c7_guaranteed_cleanup 2 1 0 sysA ⟨[StepD.submit (Except.ok 5) 0], rfl⟩).1 0⟩

/-- C8: submit never rejects synchronously - at every reachable state the
submit step always produces a successor state in which the fresh promise is
not yet settled; any settlement carries, verbatim, the submitted task's own
outcome: a resolution value always matches a submission with exactly that
value, a rejection error always matches a submission with exactly that
error; and with positive limits the run can always be continued so that
every submitted promise settles exactly once, still verbatim. -/
theorem c8_submit_contract (maxC rps t0 : Int) (s : Sys)
    (hreach : SysReachable maxC rps t0 s) :
    (∀ (o : Outcome) (t : Int), s.now ≤ t →
      ∃ s2, stepSys s (StepD.submit o t) = some s2
        ∧ settleCount s2.events s.nextPid = 0)
    ∧ (∀ pid v, REv.resolveE pid v ∈ s.events → REv.submitE pid (Except.ok v) ∈ s.events)
    ∧ (∀ pid e, REv.rejectE pid e ∈ s.events → REv.submitE pid (Except.error e) ∈ s.events)
    ∧ (1 ≤ rps → 1 ≤ maxC →
        ∃ ds s2, runSys s ds = some s2
          ∧ (∀ pid ∈ submittedPids s.events, settleCount s2.events pid = 1)
          ∧ (∀ pid v, REv.resolveE pid v ∈ s2.events
              → REv.submitE pid (Except.ok v) ∈ s2.events)
          ∧ (∀ pid e, REv.rejectE pid e ∈ s2.events
              → REv.submitE pid (Except.error e) ∈ s2.events)) := by
  obtain ⟨hg, hm, hr⟩ := sysReachable_good hreach
  refine ⟨?_, ?_, ?_, ?_⟩
  · intro o t ht
    refine ⟨_, submit_step_eq o ht, ?_⟩
    rw [settleCount_processSync]
    show settleCount (s.events ++ [REv.submitE s.nextPid o]) s.nextPid = 0
    rw [settleCount_append]
    have h1 : settleCount s.events s.nextPid = 0 := by
      rw [settleCount_eq, hg.1.fresh s.nextPid (le_refl _)]
      rfl
    have h2 : settleCount [REv.submitE s.nextPid o] s.nextPid = 0 := rfl
    rw [h1, h2]
  · intro pid v hv
    exact (verbatim_of_shape (evShape_of_sysInv hg.1 pid)).1 v hv
  · intro pid e he
    exact (verbatim_of_shape (evShape_of_sysInv hg.1 pid)).2 e he
  · intro hrps hmax
    obtain ⟨ds, s2, hrun, hq2, ht2⟩ := drain hg (by rw [hr]; exact hrps)
      (by rw [hm]; exact hmax)
    obtain ⟨hg2, -, -, -, hev, -⟩ := goodSys_runSys hg hrun
    refine ⟨ds, s2, hrun, ?_, ?_, ?_⟩
    · intro pid hpid
      obtain ⟨tl, htl⟩ := hev
      have hpid2 : pid ∈ submittedPids s2.events := by
        rw [htl, submittedPids_append]
        exact List.mem_append.mpr (Or.inl hpid)
      exact settled_of_drained hg2.1 hq2 ht2 hpid2
    · intro pid v hv
      exact (verbatim_of_shape (evShape_of_sysInv hg2.1 pid)).1 v hv
    · intro pid e he
      exact (verbatim_of_shape (evShape_of_sysInv hg2.1 pid)).2 e he

theorem c8_submit_contract_witness :
    SysReachable 2 1 0 sysA
    ∧ (∀ pid v, REv.resolveE pid v ∈ sysA.events
        → REv.submitE pid (Except.ok v) ∈ sysA.events) :=
  ⟨⟨[StepD.submit (Except.ok 5) 0], rfl⟩,
    (c8_submit_contract 2 1 0 sysA ⟨[StepD.submit (Except.ok 5) 0], rfl⟩).2.1⟩
